import Mathlib

/-!
# Bit-banged I2C master of the RSL10 firmware (i2c_hal.c, app.c)

A shallow embedding of `src/rsl10_master/src/i2c_hal.c` and of the main loop of
`src/rsl10_master/src/app.c`.  The C functions are state transformers over a
`Machine`: the pad configuration of the two bus pins, the byte memory the
caller's buffers live in, the number of SDA samples taken so far and the log
of every pad access and busy-wait performed.  The slave is an arbitrary
function giving the level the master reads at its k-th sample of SDA.  Machine
integers are natural numbers reduced modulo 256 where the C code stores them
in a `uint8_t`.
-/

namespace I2C

/-! ## Platform interface (rsl10.h) -/

/-- Pad modes used by the driver: `DIO_MODE_GPIO_IN_0` (high impedance input, the
pull-up holds the line at 1) and `DIO_MODE_GPIO_OUT_0` (output driving 0). -/
inductive DioMode where
  | GPIO_IN_0
  | GPIO_OUT_0
  deriving DecidableEq, Repr

open DioMode

/-- One observable action of the firmware on the platform. -/
inductive Event where
  /-- Source: `Sys_DIO_Config(pin, mode)` -/
  | dioConfig (pin : Nat) (mode : DioMode)
  /-- Source: `Sys_GPIO_Set_Low(pin)` -/
  | gpioSetLow (pin : Nat)
  /-- A `volatile` counting loop of the given number of iterations. -/
  | spin (count : Nat)
  /-- A read of `DIO->DATA` masked with the pin: the level found. -/
  | dioData (pin : Nat) (level : Bool)
  /-- Source: `Sys_GPIO_Set_High(pin)` -/
  | gpioSetHigh (pin : Nat)
  /-- Source: `Sys_Watchdog_Refresh()` -/
  | watchdogRefresh
  deriving DecidableEq, Repr

/-- Source: `#define SDA_PIN 2` -/
def SDA_PIN : Nat := 2

/-- Source: `#define SCL_PIN 3` -/
def SCL_PIN : Nat := 3

/-- Source: `#define I2C_DELAY 250` -/
def I2C_DELAY : Nat := 250

/-- The state the driver acts on. -/
structure Machine where
  /-- Pad mode of the SDA pin. -/
  sda : DioMode
  /-- Pad mode of the SCL pin. -/
  scl : DioMode
  /-- Number of samples of SDA taken so far. -/
  reads : Nat
  /-- Every platform action so far, oldest first. -/
  trace : List Event
  /-- Byte memory, indexed by address. -/
  mem : Nat → Nat

/-- The level of SDA found by the master at each of its samples, in order:
`true` is logic 1 (nobody pulls the line low), `false` is logic 0. -/
abbrev Slave := Nat → Bool

/-- Modelled from the spec: `Sys_DIO_Config` of the vendor SDK, not in the
repository.  "configure pin as push-pull output driving 0" for
`DIO_MODE_GPIO_OUT_0`, "configure pin as high-impedance input" for
`DIO_MODE_GPIO_IN_0`. -/
def Sys_DIO_Config (pin : Nat) (mode : DioMode) (s : Machine) : Machine :=
  { s with
    sda := if pin = SDA_PIN then mode else s.sda
    scl := if pin = SCL_PIN then mode else s.scl
    trace := s.trace ++ [Event.dioConfig pin mode] }

/-- Modelled from the spec: `Sys_GPIO_Set_Low` of the vendor SDK, not in the
repository.  It clears the output data bit of the pin ("force any residual
drive to 0"); the pad mode is left as it is. -/
def Sys_GPIO_Set_Low (pin : Nat) (s : Machine) : Machine :=
  { s with trace := s.trace ++ [Event.gpioSetLow pin] }

/-- Modelled from the spec: `Sys_GPIO_Set_High` of the vendor SDK, not in the
repository.  It sets the output data bit of the pin (`set_led(on_off)`); the
pad mode is left as it is. -/
def Sys_GPIO_Set_High (pin : Nat) (s : Machine) : Machine :=
  { s with trace := s.trace ++ [Event.gpioSetHigh pin] }

/-- Modelled from the spec: `Sys_Watchdog_Refresh` of the vendor SDK, not in the
repository (`refresh_watchdog()`). -/
def Sys_Watchdog_Refresh (s : Machine) : Machine :=
  { s with trace := s.trace ++ [Event.watchdogRefresh] }

/-- The loop `for(volatile ... i = 0; i < count; i++);`. -/
def busy_wait (count : Nat) (s : Machine) : Machine :=
  { s with trace := s.trace ++ [Event.spin count] }

/-- Modelled from the spec: `Sys_Delay_ProgramROM` of the vendor SDK, not in the
repository: a blocking delay of the given number of system clock cycles
(`delay_ms(ms)`). -/
def Sys_Delay_ProgramROM (cycles : Nat) (s : Machine) : Machine :=
  busy_wait cycles s

/-- The store `data[i] = value` through a byte pointer. -/
def store (m : Nat → Nat) (addr value : Nat) : Nat → Nat :=
  fun a => if a = addr then value else m a

/-! ## i2c_hal.c -/

/-- Source: `static void i2c_delay(void)` -/
def i2c_delay (s : Machine) : Machine :=
  busy_wait I2C_DELAY s

/-- Source: `static void sda_low(void)` -/
def sda_low (s : Machine) : Machine :=
  Sys_GPIO_Set_Low SDA_PIN (Sys_DIO_Config SDA_PIN GPIO_OUT_0 s)

/-- Source: `static void sda_release(void)` -/
def sda_release (s : Machine) : Machine :=
  Sys_DIO_Config SDA_PIN GPIO_IN_0 s

/-- Source: `static uint8_t sda_read(void)`: returns 1 when the line is high, else 0. -/
def sda_read (slave : Slave) (s : Machine) : Nat × Machine :=
  let s1 := busy_wait 50 (Sys_DIO_Config SDA_PIN GPIO_IN_0 s)
  let level := slave s1.reads
  ((if level then 1 else 0),
   { s1 with reads := s1.reads + 1,
             trace := s1.trace ++ [Event.dioData SDA_PIN level] })

/-- Source: `static void scl_low(void)` -/
def scl_low (s : Machine) : Machine :=
  Sys_GPIO_Set_Low SCL_PIN (Sys_DIO_Config SCL_PIN GPIO_OUT_0 s)

/-- Source: `static void scl_release(void)` -/
def scl_release (s : Machine) : Machine :=
  Sys_DIO_Config SCL_PIN GPIO_IN_0 s

/-- Source: `static void i2c_start(void)` -/
def i2c_start (s : Machine) : Machine :=
  let s := sda_release s
  let s := i2c_delay s
  let s := scl_release s
  let s := i2c_delay s
  let s := sda_low s
  let s := i2c_delay s
  let s := scl_low s
  i2c_delay s

/-- Source: `static void i2c_stop(void)` -/
def i2c_stop (s : Machine) : Machine :=
  let s := sda_low s
  let s := i2c_delay s
  let s := scl_release s
  let s := i2c_delay s
  let s := sda_release s
  i2c_delay s

/-- The `for` loop of `i2c_write_byte` with `n` iterations still to run:
`byte` is the `uint8_t` being shifted out. -/
def i2c_write_bits : Nat → Nat → Machine → Machine
  | 0, _, s => s
  | n + 1, byte, s =>
    let s := scl_low s
    let s := i2c_delay s
    let s := if byte &&& 0x80 ≠ 0 then sda_release s else sda_low s
    let s := i2c_delay s
    let s := scl_release s
    let s := i2c_delay s
    i2c_write_bits n ((byte <<< 1) % 256) s

/-- Source: `static uint8_t i2c_write_byte(uint8_t byte)`: 1 if the slave acknowledged,
0 otherwise. -/
def i2c_write_byte (slave : Slave) (byte : Nat) (s : Machine) : Nat × Machine :=
  let s := i2c_write_bits 8 byte s
  let s := scl_low s
  let s := i2c_delay s
  let s := sda_release s
  let s := i2c_delay s
  let s := scl_release s
  let s := i2c_delay s
  let r := sda_read slave s
  let ack := r.1
  let s := i2c_delay r.2
  let s := scl_low s
  let s := i2c_delay s
  ((if ack = 0 then 1 else 0), s)

/-- The `for` loop of `i2c_read_byte` with `n` iterations still to run: `byte`
is the `uint8_t` accumulator. -/
def i2c_read_bits (slave : Slave) : Nat → Nat → Machine → Nat × Machine
  | 0, byte, s => (byte, s)
  | n + 1, byte, s =>
    let s := scl_low s
    let s := i2c_delay s
    let s := i2c_delay s
    let s := scl_release s
    let s := i2c_delay s
    let byte := (byte <<< 1) % 256
    let r := sda_read slave s
    let byte := if r.1 ≠ 0 then byte ||| 1 else byte
    let s := i2c_delay r.2
    i2c_read_bits slave n byte s

/-- Source: `static uint8_t i2c_read_byte(uint8_t send_ack)` -/
def i2c_read_byte (slave : Slave) (send_ack : Nat) (s : Machine) : Nat × Machine :=
  let s := sda_release s
  let r := i2c_read_bits slave 8 0 s
  let byte := r.1
  let s := scl_low r.2
  let s := i2c_delay s
  let s := if send_ack ≠ 0 then sda_low s else sda_release s
  let s := i2c_delay s
  let s := scl_release s
  let s := i2c_delay s
  let s := i2c_delay s
  let s := scl_low s
  let s := i2c_delay s
  let s := sda_release s
  (byte, s)

/-- Source: `typedef enum { ... } I2C_Status_t` -/
inductive I2C_Status_t where
  | I2C_STATUS_OK
  | I2C_STATUS_ERROR
  | I2C_STATUS_TIMEOUT
  | I2C_STATUS_NACK
  deriving DecidableEq, Repr

open I2C_Status_t

/-- Source: `void I2C_Init(uint32_t speed)` -/
def I2C_Init (_speed : Nat) (s : Machine) : Machine :=
  let s := Sys_DIO_Config SDA_PIN GPIO_IN_0 s
  let s := Sys_DIO_Config SCL_PIN GPIO_IN_0 s
  let s := Sys_GPIO_Set_Low SDA_PIN s
  let s := Sys_GPIO_Set_Low SCL_PIN s
  let s := sda_release s
  let s := scl_release s
  busy_wait 50000 s

/-- The address byte handed to `i2c_write_byte`: `(slave_addr << 1) | rw`
computed in `int` and converted to the `uint8_t` parameter. -/
def addr_byte (slave_addr rw : Nat) : Nat :=
  ((slave_addr <<< 1) ||| rw) % 256

/-- The payload loop of `I2C_Write`, `for(uint16_t i = 0; i < length; i++)`, with
`n` iterations still to run at index `i`, and the code after it.  (`i < length`
and `length` is a `uint16_t`, so `i++` never wraps.) -/
def I2C_Write_loop (slave : Slave) (data : Nat) :
    Nat → Nat → Machine → I2C_Status_t × Machine
  | 0, _, s => (I2C_STATUS_OK, i2c_stop s)
  | n + 1, i, s =>
    let r := i2c_write_byte slave (s.mem (data + i)) s
    if r.1 = 0 then
      (I2C_STATUS_NACK, i2c_stop r.2)
    else
      I2C_Write_loop slave data n (i + 1) r.2

/-- Source: `I2C_Status_t I2C_Write(uint8_t slave_addr, const uint8_t *data, uint16_t length)`;
`data` is the address of the buffer. -/
def I2C_Write (slave : Slave) (slave_addr data length : Nat) (s : Machine) :
    I2C_Status_t × Machine :=
  let s := i2c_start s
  let r := i2c_write_byte slave (addr_byte slave_addr 0) s
  if r.1 = 0 then
    (I2C_STATUS_NACK, i2c_stop r.2)
  else
    I2C_Write_loop slave data length 0 r.2

/-- The receive loop of `I2C_Read`, `for(uint16_t i = 0; i < length; i++)`, with
`n` iterations still to run at index `i`.  The comparison `i < length - 1` is
done in `int`, both operands being promoted. -/
def I2C_Read_loop (slave : Slave) (data length : Nat) :
    Nat → Nat → Machine → Machine
  | 0, _, s => s
  | n + 1, i, s =>
    let send_ack : Nat := if (i : Int) < (length : Int) - 1 then 1 else 0
    let r := i2c_read_byte slave send_ack s
    let s := { r.2 with mem := store r.2.mem (data + i) r.1 }
    I2C_Read_loop slave data length n (i + 1) s

/-- Source: `I2C_Status_t I2C_Read(uint8_t slave_addr, uint8_t *data, uint16_t length)`;
`data` is the address of the buffer. -/
def I2C_Read (slave : Slave) (slave_addr data length : Nat) (s : Machine) :
    I2C_Status_t × Machine :=
  let s := i2c_start s
  let r := i2c_write_byte slave (addr_byte slave_addr 1) s
  if r.1 = 0 then
    (I2C_STATUS_NACK, i2c_stop r.2)
  else
    let s := I2C_Read_loop slave data length length 0 r.2
    (I2C_STATUS_OK, i2c_stop s)

/-- Source: `I2C_Status_t I2C_WriteRead(uint8_t slave_addr, const uint8_t *tx_data,
uint16_t tx_length, uint8_t *rx_data, uint16_t rx_length)` -/
def I2C_WriteRead (slave : Slave) (slave_addr tx_data tx_length rx_data rx_length : Nat)
    (s : Machine) : I2C_Status_t × Machine :=
  let r := I2C_Write slave slave_addr tx_data tx_length s
  if r.1 ≠ I2C_STATUS_OK then
    (r.1, r.2)
  else
    let s := busy_wait 50000 r.2
    I2C_Read slave slave_addr rx_data rx_length s

/-! ## app.c -/

/-- Source: `#define ARDUINO_ADDR 0x55` -/
def ARDUINO_ADDR : Nat := 0x55

/-- Source: `#define LED_DIO 6` (app.h) -/
def LED_DIO : Nat := 6

/-- Source: `#define SYSTEM_CLOCK_48MHZ 48000000` (app.h), the value of
`SystemCoreClock` after `Initialize`. -/
def SYSTEM_CLOCK_48MHZ : Nat := 48000000

/-- Address standing for `&counter`, the local variable of `main`. -/
def counter_slot : Nat := 0

/-- Address standing for `&response`, the local variable of `main`. -/
def response_slot : Nat := 1

/-- The state of `main` at the head of its loop: the three `uint8_t` locals,
the machine, and what has been written to the RTT console, oldest first, each
`PRINTF` as its format string and arguments. -/
structure App where
  /-- Source: `uint8_t counter` -/
  counter : Nat
  /-- Source: `uint8_t success_count` -/
  success_count : Nat
  /-- Source: `uint8_t fail_count` -/
  fail_count : Nat
  /-- The machine. -/
  m : Machine
  /-- The console output. -/
  console : List (String × List Nat)

/-- The locals as declared before the loop: `counter = 0`, `success_count = 0`,
`fail_count = 0`. -/
def main_entry (m : Machine) : App :=
  { counter := 0, success_count := 0, fail_count := 0, m := m, console := [] }

/-- The call `I2C_Write(ARDUINO_ADDR, &counter, 1)` of one iteration. -/
def tx_phase (slave : Slave) (a : App) : I2C_Status_t × Machine :=
  I2C_Write slave ARDUINO_ADDR counter_slot 1
    { a.m with mem := store a.m.mem counter_slot a.counter }

/-- The call `I2C_Read(ARDUINO_ADDR, &response, 1)` of one iteration, made after
a write that returned OK: LED on, 100 ms delay, `response = 0`, then the
read.  The cycle count `(uint32_t)(0.1 * SystemCoreClock)` is 4800000, written
here as a division. -/
def rx_phase (slave : Slave) (a : App) : I2C_Status_t × Machine :=
  let m := Sys_GPIO_Set_High LED_DIO (tx_phase slave a).2
  let m := Sys_Delay_ProgramROM (SYSTEM_CLOCK_48MHZ / 10) m
  I2C_Read slave ARDUINO_ADDR response_slot 1
    { m with mem := store m.mem response_slot 0 }

/-- The format of the stats line. -/
def stats_format : String := "--- Stats: Success=%d, Fail=%d ---\r\n"

/-- One iteration of the `while (1)` loop of `main`. -/
def main_iteration (slave : Slave) (a : App) : App :=
  let console := a.console ++ [("[%03d] TX: 0x%02X ", [a.counter, a.counter])]
  let tx := tx_phase slave a
  let b : App :=
    if tx.1 = I2C_STATUS_OK then
      let console := console ++ [("✓ ", [])]
      let rx := rx_phase slave a
      let response := rx.2.mem response_slot
      let c : App :=
        if rx.1 = I2C_STATUS_OK then
          let console := console ++ [("| RX: 0x%02X ", [response])]
          let expected := (a.counter + 1) % 256
          if response = expected then
            { a with console := console ++ [("✓", [])],
                     success_count := (a.success_count + 1) % 256, m := rx.2 }
          else
            { a with console := console ++ [("✗ (expected 0x%02X)", [expected])],
                     fail_count := (a.fail_count + 1) % 256, m := rx.2 }
        else
          { a with console := console ++ [("| RX: FAIL", [])],
                   fail_count := (a.fail_count + 1) % 256, m := rx.2 }
      { c with m := Sys_GPIO_Set_Low LED_DIO c.m }
    else
      { a with console := console ++ [("✗ NACK", [])],
               fail_count := (a.fail_count + 1) % 256, m := tx.2 }
  let b := { b with console := b.console ++ [("\r\n", [])] }
  let b :=
    if a.counter % 10 = 9 then
      { b with console := b.console ++ [(stats_format, [b.success_count, b.fail_count])] }
    else b
  let b := { b with counter := (a.counter + 1) % 256 }
  { b with m := Sys_Watchdog_Refresh (Sys_Delay_ProgramROM (SYSTEM_CLOCK_48MHZ / 2) b.m) }

/-- The state at the head of the loop after `n` iterations. -/
def main_loop (slave : Slave) : Nat → App → App
  | 0, a => a
  | n + 1, a => main_loop slave n (main_iteration slave a)

/-- The state at the head of iteration number `k`, counting from 0, of `main`
entered with machine `m`. -/
def at_iteration (slave : Slave) (m : Machine) (k : Nat) : App :=
  main_loop slave k (main_entry m)

/-! ## What a bus analyser sees -/

/-- A change of one of the two lines caused by the master, or a sample of SDA by
the master, together with the master's drive of the other line at that
moment. -/
inductive Edge where
  /-- SDA goes from released to driven low while SCL is in the given mode. -/
  | sdaFall (scl : DioMode)
  /-- SDA goes from driven low to released while SCL is in the given mode. -/
  | sdaRise (scl : DioMode)
  /-- SCL goes from released to driven low while SDA is in the given mode. -/
  | sclFall (sda : DioMode)
  /-- SCL goes from driven low to released while SDA is in the given mode. -/
  | sclRise (sda : DioMode)
  /-- The master reads SDA and finds the given level. -/
  | sample (level : Bool)
  deriving DecidableEq, Repr

/-- The line changes and samples in a log of platform actions, starting from
the given pad modes of SDA and SCL.  Reconfiguring a pad to the mode it
already has changes nothing on the line. -/
def edges : DioMode → DioMode → List Event → List Edge
  | _, _, [] => []
  | sda, scl, Event.dioConfig pin mode :: es =>
    if pin = SDA_PIN then
      if mode = sda then edges sda scl es
      else (match mode with
            | GPIO_OUT_0 => Edge.sdaFall scl
            | GPIO_IN_0 => Edge.sdaRise scl) :: edges mode scl es
    else if pin = SCL_PIN then
      if mode = scl then edges sda scl es
      else (match mode with
            | GPIO_OUT_0 => Edge.sclFall sda
            | GPIO_IN_0 => Edge.sclRise sda) :: edges sda mode es
    else edges sda scl es
  | sda, scl, Event.dioData pin level :: es =>
    if pin = SDA_PIN then Edge.sample level :: edges sda scl es
    else edges sda scl es
  | sda, scl, _ :: es => edges sda scl es

/-- An SDA change made while the master has SCL released: a START or STOP. -/
def Edge.isCondition : Edge → Bool
  | Edge.sdaFall GPIO_IN_0 => true
  | Edge.sdaRise GPIO_IN_0 => true
  | _ => false

/-- A symbol of the I2C protocol. -/
inductive Sym where
  /-- SDA falls while SCL is high. -/
  | START
  /-- SDA rises while SCL is high. -/
  | STOP
  /-- One clock pulse (SCL released, then pulled low again): the master's drive
  of SDA during the pulse and the level it sampled during the pulse, if it
  sampled. -/
  | clk (sda : DioMode) (sampled : Option Bool)
  deriving DecidableEq, Repr

/-- Protocol decoder over the line changes.  The first argument is the clock
pulse in progress (SCL has risen and not fallen yet), if any. -/
def decode : Option (DioMode × Option Bool) → List Edge → List Sym
  | _, [] => []
  | _, Edge.sclRise sda :: es => decode (some (sda, none)) es
  | some (d, _), Edge.sample level :: es => decode (some (d, some level)) es
  | none, Edge.sample _ :: es => decode none es
  | some (d, smp), Edge.sclFall _ :: es => Sym.clk d smp :: decode none es
  | none, Edge.sclFall _ :: es => decode none es
  | _, Edge.sdaFall GPIO_IN_0 :: es => Sym.START :: decode none es
  | _, Edge.sdaRise GPIO_IN_0 :: es => Sym.STOP :: decode none es
  | p, Edge.sdaFall GPIO_OUT_0 :: es => decode p es
  | p, Edge.sdaRise GPIO_OUT_0 :: es => decode p es

/-- The protocol symbols seen on the bus for a log of platform actions that
starts with the pads in the given modes and no clock pulse in progress. -/
def wire (sda scl : DioMode) (evs : List Event) : List Sym :=
  decode none (edges sda scl evs)

/-- The platform actions performed between state `s` and a later state `t`. -/
def since (s t : Machine) : List Event :=
  t.trace.drop s.trace.length

/-- Number of complete clock pulses among protocol symbols. -/
def pulses (w : List Sym) : Nat :=
  (w.filter (fun x => match x with
                      | Sym.clk _ _ => true
                      | _ => false)).length

/-- The pad mode that puts a data bit on SDA: released for 1, driven low for 0. -/
def drive (bit : Bool) : DioMode :=
  if bit then GPIO_IN_0 else GPIO_OUT_0

/-- The bits of a byte from bit 7 down to bit 0. -/
def msb_bits (byte : Nat) : List Bool :=
  [byte.testBit 7, byte.testBit 6, byte.testBit 5, byte.testBit 4,
   byte.testBit 3, byte.testBit 2, byte.testBit 1, byte.testBit 0]

/-- The number whose binary digits, most significant first, are the given
bits. -/
def of_bits (bits : List Bool) : Nat :=
  bits.foldl (fun acc b => 2 * acc + (if b then 1 else 0)) 0

/-- The symbols of one byte sent by the master: eight pulses carrying the bits
of `byte` from bit 7 to bit 0, then a pulse with SDA released during which the
master samples the acknowledge level. -/
def tx_frame (byte : Nat) (ack_level : Bool) : List Sym :=
  (msb_bits byte).map (fun b => Sym.clk (drive b) none) ++
    [Sym.clk GPIO_IN_0 (some ack_level)]

/-- The symbols of one byte received by the master: eight pulses with SDA
released, each with the sampled level, then a pulse without a sample during
which the master holds SDA in `reply` (driven low: ACK, released: NACK). -/
def rx_frame (levels : List Bool) (reply : DioMode) : List Sym :=
  levels.map (fun l => Sym.clk GPIO_IN_0 (some l)) ++ [Sym.clk reply none]

/-- The bus is idle: the master has both lines released. -/
def idle (s : Machine) : Prop :=
  s.sda = GPIO_IN_0 ∧ s.scl = GPIO_IN_0

instance (s : Machine) : Decidable (idle s) := by
  unfold idle; infer_instance

/-! ## Definitions used in the proofs -/

/-- The effect of one logged platform action on the machine. -/
def Event.apply (s : Machine) : Event → Machine
  | Event.dioConfig pin mode => Sys_DIO_Config pin mode s
  | Event.gpioSetLow pin => Sys_GPIO_Set_Low pin s
  | Event.spin count => busy_wait count s
  | Event.dioData pin level =>
    { s with reads := s.reads + 1, trace := s.trace ++ [Event.dioData pin level] }
  | Event.gpioSetHigh pin => Sys_GPIO_Set_High pin s
  | Event.watchdogRefresh => Sys_Watchdog_Refresh s

/-- The machine after performing the given actions in order. -/
def replay (es : List Event) (s : Machine) : Machine :=
  es.foldl Event.apply s

/-- Events of `i2c_delay`. -/
def ev_delay : List Event := [Event.spin I2C_DELAY]

/-- Events of `sda_release` (mode `GPIO_IN_0`) or `sda_low` (mode `GPIO_OUT_0`). -/
def ev_sda : DioMode → List Event
  | GPIO_IN_0 => [Event.dioConfig SDA_PIN GPIO_IN_0]
  | GPIO_OUT_0 => [Event.dioConfig SDA_PIN GPIO_OUT_0, Event.gpioSetLow SDA_PIN]

/-- Events of `scl_release` (mode `GPIO_IN_0`) or `scl_low` (mode `GPIO_OUT_0`). -/
def ev_scl : DioMode → List Event
  | GPIO_IN_0 => [Event.dioConfig SCL_PIN GPIO_IN_0]
  | GPIO_OUT_0 => [Event.dioConfig SCL_PIN GPIO_OUT_0, Event.gpioSetLow SCL_PIN]

/-- Events of `sda_read` finding the given level. -/
def ev_read (level : Bool) : List Event :=
  [Event.dioConfig SDA_PIN GPIO_IN_0, Event.spin 50, Event.dioData SDA_PIN level]

/-- Events of `i2c_start`. -/
def ev_start : List Event :=
  ev_sda GPIO_IN_0 ++ ev_delay ++ ev_scl GPIO_IN_0 ++ ev_delay ++
    ev_sda GPIO_OUT_0 ++ ev_delay ++ ev_scl GPIO_OUT_0 ++ ev_delay

/-- Events of `i2c_stop`. -/
def ev_stop : List Event :=
  ev_sda GPIO_OUT_0 ++ ev_delay ++ ev_scl GPIO_IN_0 ++ ev_delay ++
    ev_sda GPIO_IN_0 ++ ev_delay

/-- Events of one iteration of the loop of `i2c_write_byte` that puts SDA in
mode `d`. -/
def ev_bit (d : DioMode) : List Event :=
  ev_scl GPIO_OUT_0 ++ ev_delay ++ ev_sda d ++ ev_delay ++ ev_scl GPIO_IN_0 ++ ev_delay

/-- Events of the acknowledge slot of `i2c_write_byte`. -/
def ev_ack (level : Bool) : List Event :=
  ev_scl GPIO_OUT_0 ++ ev_delay ++ ev_sda GPIO_IN_0 ++ ev_delay ++ ev_scl GPIO_IN_0 ++
    ev_delay ++ ev_read level ++ ev_delay ++ ev_scl GPIO_OUT_0 ++ ev_delay

/-- Events of `i2c_write_byte`. -/
def ev_write_byte (byte : Nat) (level : Bool) : List Event :=
  ((msb_bits byte).map drive).flatMap ev_bit ++ ev_ack level

/-- Number of samples of SDA in a log. -/
def sample_count : List Event → Nat
  | [] => 0
  | Event.dioData _ _ :: es => sample_count es + 1
  | _ :: es => sample_count es

/-- The SDA modes chosen by `n` iterations of the loop of `i2c_write_byte`. -/
def bit_modes : Nat → Nat → List DioMode
  | 0, _ => []
  | n + 1, byte =>
    (if byte &&& 0x80 ≠ 0 then GPIO_IN_0 else GPIO_OUT_0) :: bit_modes n ((byte <<< 1) % 256)

/-- The levels found by `n` consecutive samples starting at sample number `r`. -/
def samples (slave : Slave) (r n : Nat) : List Bool :=
  (List.range n).map (fun k => slave (r + k))

/-- Events of one iteration of the loop of `i2c_read_byte` that finds the
given level. -/
def ev_rbit (level : Bool) : List Event :=
  ev_scl GPIO_OUT_0 ++ ev_delay ++ ev_delay ++ ev_scl GPIO_IN_0 ++ ev_delay ++
    ev_read level ++ ev_delay

/-- Events of `i2c_read_byte` finding the given levels and replying with SDA in
mode `reply` during the ninth clock. -/
def ev_read_byte (levels : List Bool) (reply : DioMode) : List Event :=
  ev_sda GPIO_IN_0 ++ levels.flatMap ev_rbit ++ ev_scl GPIO_OUT_0 ++ ev_delay ++
    ev_sda reply ++ ev_delay ++ ev_scl GPIO_IN_0 ++ ev_delay ++ ev_delay ++
    ev_scl GPIO_OUT_0 ++ ev_delay ++ ev_sda GPIO_IN_0

/-- The accumulator of `i2c_read_byte` after shifting in the given levels. -/
def shift_in (byte : Nat) (levels : List Bool) : Nat :=
  levels.foldl (fun acc l => if l then ((acc <<< 1) % 256) ||| 1 else (acc <<< 1) % 256) byte

/-- The mode of SDA during the ninth clock of a received byte. -/
def reply_mode (send_ack : Nat) : DioMode :=
  if send_ack ≠ 0 then GPIO_OUT_0 else GPIO_IN_0

/-- The bytes clocked out by a run of at most `n` transmissions starting with
byte number `k` at sample number `r`, each with the acknowledge level found;
the run ends after the first byte that is not acknowledged. -/
def tx_log (slave : Slave) (byte : Nat → Nat) : Nat → Nat → Nat → List (Nat × Bool)
  | 0, _, _ => []
  | n + 1, k, r =>
    (byte k, slave r) :: (if slave r then [] else tx_log slave byte n (k + 1) (r + 1))

/-- Whether `n` consecutive acknowledge samples starting at sample number `r`
are all low. -/
def all_ack (slave : Slave) : Nat → Nat → Bool
  | 0, _ => true
  | n + 1, r => !slave r && all_ack slave n (r + 1)

/-- Events of a run of transmitted bytes. -/
def ev_tx (log : List (Nat × Bool)) : List Event :=
  log.flatMap (fun p => ev_write_byte p.1 p.2)

/-- Status of a write whose acknowledge samples were all low or not. -/
def tx_status (ok : Bool) : I2C_Status_t :=
  if ok then I2C_STATUS_OK else I2C_STATUS_NACK

/-- The machine with its memory replaced. -/
def with_mem (s : Machine) (m : Nat → Nat) : Machine :=
  { s with mem := m }

/-- The `send_ack` flag computed by `I2C_Read` for the byte of index `i`. -/
def send_ack_of (length i : Nat) : Nat :=
  if (i : Int) < (length : Int) - 1 then 1 else 0

/-- Events of `n` iterations of the loop of `I2C_Read` from index `i` and sample
number `r`. -/
def ev_rx (slave : Slave) (length : Nat) : Nat → Nat → Nat → List Event
  | 0, _, _ => []
  | n + 1, i, r =>
    ev_read_byte (samples slave r 8) (reply_mode (send_ack_of length i)) ++
      ev_rx slave length n (i + 1) (r + 8)

/-- Memory after `n` iterations of the loop of `I2C_Read` from index `i` and
sample number `r`. -/
def rx_mem (slave : Slave) (data : Nat) : Nat → Nat → Nat → (Nat → Nat) → (Nat → Nat)
  | 0, _, _, m => m
  | n + 1, i, r, m =>
    rx_mem slave data n (i + 1) (r + 8) (store m (data + i) (of_bits (samples slave r 8)))

/-- The decoder run from an arbitrary point: pulse in progress and pad modes. -/
def scan (p : Option (DioMode × Option Bool)) (sda scl : DioMode) (evs : List Event) :
    List Sym :=
  decode p (edges sda scl evs)

/-- Events of the ninth clock of `i2c_read_byte`. -/
def ev_reply (reply : DioMode) : List Event :=
  ev_scl GPIO_OUT_0 ++ ev_delay ++ ev_sda reply ++ ev_delay ++ ev_scl GPIO_IN_0 ++
    ev_delay ++ ev_delay ++ ev_scl GPIO_OUT_0 ++ ev_delay ++ ev_sda GPIO_IN_0

/-- The k-th byte `I2C_Write` transmits: the address byte with R/W = 0, then the
payload `data[0]`, `data[1]`, ... -/
def tx_byte (slave_addr data : Nat) (mem : Nat → Nat) : Nat → Nat
  | 0 => addr_byte slave_addr 0
  | k + 1 => mem (data + k)

/-- The symbols of a run of transmitted bytes. -/
def tx_frames (log : List (Nat × Bool)) : List Sym :=
  log.flatMap (fun p => tx_frame p.1 p.2)

/-- The protocol symbols seen on the bus between state `s` and a later state
`t`, decoded from the pad modes of `s`. -/
def bus_wire (s t : Machine) : List Sym :=
  wire s.sda s.scl (since s t)

/-- The level of SDA during a clock pulse: low when the master drives it low,
otherwise the level the master sampled, otherwise high (pull-up). -/
def wire_bit : Sym → Bool
  | Sym.clk GPIO_OUT_0 _ => false
  | Sym.clk GPIO_IN_0 (some level) => level
  | _ => true

/-- The value of the first byte after the first symbol of a transaction: the
eight pulses that follow the START, most significant bit first. -/
def first_byte (w : List Sym) : Nat :=
  of_bits (((w.drop 1).take 8).map wire_bit)

/-- A machine with the bus idle, no history, and payload bytes 0x2A, 0x3B
at addresses 100 and 101. -/
def demo_machine : Machine :=
  { sda := GPIO_IN_0, scl := GPIO_IN_0, reads := 0, trace := [],
    mem := fun a => if a = 100 then 0x2A else if a = 101 then 0x3B else 0 }

/-- A slave that acknowledges the address byte and the bytes after the first
payload byte, and does not acknowledge the first payload byte. -/
def demo_nack_second : Slave := fun k => decide (k = 1)

/-- A slave that never pulls SDA low. -/
def demo_absent : Slave := fun _ => true

/-- A slave that pulls SDA low at every sample. -/
def demo_all_low : Slave := fun _ => false

/-- The symbols of `n` received bytes from index `i` and sample number `r` in a
read of `length` bytes. -/
def rx_frames (slave : Slave) (length : Nat) : Nat → Nat → Nat → List Sym
  | 0, _, _ => []
  | n + 1, i, r =>
    rx_frame (samples slave r 8) (reply_mode (send_ack_of length i)) ++
      rx_frames slave length n (i + 1) (r + 8)

/-- A slave that acknowledges the address byte and then shifts out 0xFE and
0x01, most significant bit first. -/
def demo_replies : Slave := fun k =>
  if k = 0 then false else (0xFE01 : Nat).testBit (16 - k)

/-- The pad modes of SDA and SCL after a log of platform actions. -/
def pads_after : DioMode × DioMode → List Event → DioMode × DioMode
  | p, [] => p
  | p, Event.dioConfig pin mode :: es =>
    pads_after (if pin = SDA_PIN then (mode, p.2)
                else if pin = SCL_PIN then (p.1, mode) else p) es
  | p, _ :: es => pads_after p es

/-- No START or STOP condition among the line changes of a log run from the
given pad modes. -/
def quiet (p : DioMode × DioMode) (es : List Event) : Prop :=
  ∀ e ∈ edges p.1 p.2 es, e.isCondition = false

/-- Run from pads `p`, the log makes no START or STOP and leaves the pads in
`q`. -/
def steps (p : DioMode × DioMode) (es : List Event) (q : DioMode × DioMode) : Prop :=
  quiet p es ∧ pads_after p es = q

/-- The line changes of a transaction: START first, STOP last, and no other SDA
change while SCL is released. -/
def framed (es : List Edge) : Prop :=
  es.head? = some (Edge.sdaFall GPIO_IN_0) ∧
  es.getLast? = some (Edge.sdaRise GPIO_IN_0) ∧
  es.filter Edge.isCondition = [Edge.sdaFall GPIO_IN_0, Edge.sdaRise GPIO_IN_0]

/-- The combined operation as the specification words it: perform the write and
propagate a status that is not OK; otherwise wait the settling interval, perform
the read and return its status. -/
def spec_write_then_read (slave : Slave)
    (slave_addr tx_data tx_length rx_data rx_length : Nat) (s : Machine) :
    I2C_Status_t × Machine :=
  match I2C_Write slave slave_addr tx_data tx_length s with
  | (I2C_STATUS_OK, s1) => I2C_Read slave slave_addr rx_data rx_length (busy_wait 50000 s1)
  | (status, s1) => (status, s1)

/-- A slave that acknowledges every byte sent to it and shifts out 0x11 when
read: low at the three acknowledge samples, then 0x11 most significant bit
first. -/
def demo_echo : Slave := fun k =>
  if k < 3 then false else (0x11 : Nat).testBit (10 - k)

/-- The per-bit action sequence as the specification words it: SCL low, SDA to
the bit value, one delay, SCL released, one delay. -/
def spec_bit_actions (d : DioMode) : List Event :=
  ev_scl GPIO_OUT_0 ++ ev_sda d ++ ev_delay ++ ev_scl GPIO_IN_0 ++ ev_delay

/-- The demo machine after one sample of SDA has been taken (the acknowledge
slot of an address byte). -/
def demo_reading : Machine :=
  { demo_machine with reads := 1 }

/-- The stats lines on the console, oldest first, each as the values printed for
Success and Fail. -/
def stats_lines (console : List (String × List Nat)) : List (List Nat) :=
  (console.filter (fun l => decide (l.1 = stats_format))).map (fun l => l.2)

/-- A peer that acknowledges every byte and, when read in iteration `k` of the
main loop, shifts out the byte `reply k`, most significant bit first.  An
iteration in which every byte is acknowledged takes eleven samples of SDA: two
acknowledge slots of the write, the acknowledge slot of the read address, and
eight data bits; `r0` is the number of samples taken before the loop. -/
def answering (r0 : Nat) (reply : Nat → Nat) : Slave := fun i =>
  if (i - r0) % 11 < 3 then false
  else (reply ((i - r0) / 11)).testBit (10 - (i - r0) % 11)

/-- The peer that answers `C + 1` to the byte `C` it was sent (in iteration `k`
the counter is `k mod 256`). -/
def peer_plus_one (r0 : Nat) : Slave :=
  answering r0 (fun k => (k % 256 + 1) % 256)

/-- The peer that answers 0x00 whatever it was sent. -/
def peer_zero (r0 : Nat) : Slave :=
  answering r0 (fun _ => 0)

/-- The switching of the LED in a log of platform actions: `true` for
`Sys_GPIO_Set_High(LED_DIO)`, `false` for `Sys_GPIO_Set_Low(LED_DIO)`. -/
def led_events : List Event → List Bool
  | [] => []
  | Event.gpioSetHigh pin :: es =>
    if pin = LED_DIO then true :: led_events es else led_events es
  | Event.gpioSetLow pin :: es =>
    if pin = LED_DIO then false :: led_events es else led_events es
  | _ :: es => led_events es

/-- Events of `I2C_Read` of `length` bytes entered at sample number `r`. -/
def read_events (slave : Slave) (slave_addr length r : Nat) : List Event :=
  if slave r then ev_start ++ ev_write_byte (addr_byte slave_addr 1) true ++ ev_stop
  else ev_start ++ ev_write_byte (addr_byte slave_addr 1) false ++
    ev_rx slave length length 0 (r + 1) ++ ev_stop

/-- Events of `I2C_Write` of `length` bytes entered at sample number `r` with
memory `mem`. -/
def write_events (slave : Slave) (slave_addr data length : Nat) (mem : Nat → Nat) (r : Nat) :
    List Event :=
  ev_start ++ (ev_tx (tx_log slave (tx_byte slave_addr data mem) (length + 1) 0 r) ++ ev_stop)

/-- Events of one iteration of the main loop. -/
def iteration_events (slave : Slave) (a : App) : List Event :=
  write_events slave ARDUINO_ADDR counter_slot 1 (store a.m.mem counter_slot a.counter)
      a.m.reads ++
    ((if (tx_phase slave a).1 = I2C_STATUS_OK then
        [Event.gpioSetHigh LED_DIO, Event.spin (SYSTEM_CLOCK_48MHZ / 10)] ++
          (read_events slave ARDUINO_ADDR 1 (tx_phase slave a).2.reads ++
            [Event.gpioSetLow LED_DIO])
      else []) ++
    [Event.spin (SYSTEM_CLOCK_48MHZ / 2), Event.watchdogRefresh])

/-- The symbols of `I2C_Read` of `length` bytes entered at sample number `r`. -/
def read_wire (slave : Slave) (slave_addr length r : Nat) : List Sym :=
  if slave r then Sym.START :: (tx_frame (addr_byte slave_addr 1) true ++ [Sym.STOP])
  else Sym.START :: (tx_frame (addr_byte slave_addr 1) false ++
    (rx_frames slave length length 0 (r + 1) ++ [Sym.STOP]))

/-! ## Lemmas and theorems -/

theorem replay_nil (s : Machine) : replay [] s = s := rfl

theorem replay_cons (e : Event) (es : List Event) (s : Machine) :
    replay (e :: es) s = replay es (Event.apply s e) := rfl

theorem replay_append (a b : List Event) (s : Machine) :
    replay (a ++ b) s = replay b (replay a s) := by
  simp [replay, List.foldl_append]

theorem sda_low_eq (s : Machine) : sda_low s = replay (ev_sda GPIO_OUT_0) s := rfl
theorem sda_release_eq (s : Machine) : sda_release s = replay (ev_sda GPIO_IN_0) s := rfl
theorem scl_low_eq (s : Machine) : scl_low s = replay (ev_scl GPIO_OUT_0) s := rfl
theorem scl_release_eq (s : Machine) : scl_release s = replay (ev_scl GPIO_IN_0) s := rfl
theorem i2c_delay_eq (s : Machine) : i2c_delay s = replay ev_delay s := rfl
theorem i2c_start_eq (s : Machine) : i2c_start s = replay ev_start s := rfl
theorem i2c_stop_eq (s : Machine) : i2c_stop s = replay ev_stop s := rfl
theorem sda_read_eq (slave : Slave) (s : Machine) :
    sda_read slave s = ((if slave s.reads then 1 else 0), replay (ev_read (slave s.reads)) s) := rfl

theorem replay_trace (es : List Event) (s : Machine) :
    (replay es s).trace = s.trace ++ es := by
  induction es generalizing s with
  | nil => simp [replay]
  | cons e es ih =>
    rw [replay_cons, ih]
    cases e <;>
      simp [Event.apply, Sys_DIO_Config, Sys_GPIO_Set_Low, Sys_GPIO_Set_High,
        Sys_Watchdog_Refresh, busy_wait]

theorem replay_mem (es : List Event) (s : Machine) : (replay es s).mem = s.mem := by
  induction es generalizing s with
  | nil => rfl
  | cons e es ih => rw [replay_cons, ih]; cases e <;> rfl

theorem replay_reads (es : List Event) (s : Machine) :
    (replay es s).reads = s.reads + sample_count es := by
  induction es generalizing s with
  | nil => rfl
  | cons e es ih =>
    rw [replay_cons, ih]
    cases e <;>
      simp [Event.apply, Sys_DIO_Config, Sys_GPIO_Set_Low, Sys_GPIO_Set_High,
        Sys_Watchdog_Refresh, busy_wait, sample_count]
    omega

theorem i2c_write_bits_eq (n byte : Nat) (s : Machine) :
    i2c_write_bits n byte s = replay ((bit_modes n byte).flatMap ev_bit) s := by
  induction n generalizing byte s with
  | zero => rfl
  | succ n ih =>
    simp only [i2c_write_bits, bit_modes, List.flatMap_cons, replay_append, ih]
    congr 1
    split <;> rfl

theorem land_0x80 (byte : Nat) : (byte &&& 0x80 ≠ 0) ↔ byte.testBit 7 = true := by
  have h128 : (0x80 : Nat) = 2 ^ 7 := by norm_num
  constructor
  · intro h
    by_contra hb
    apply h
    apply Nat.eq_of_testBit_eq
    intro i
    rw [Nat.testBit_and, h128, Nat.testBit_two_pow]
    by_cases hi : 7 = i
    · subst hi; simp [hb]
    · simp [hi]
  · intro hb h
    have h7 : (byte &&& 0x80).testBit 7 = true := by
      rw [Nat.testBit_and, hb, h128, Nat.testBit_two_pow_self]; rfl
    rw [h] at h7
    simp at h7

theorem bit_mode_eq (byte : Nat) :
    (if byte &&& 0x80 ≠ 0 then GPIO_IN_0 else GPIO_OUT_0) = drive (byte.testBit 7) := by
  unfold drive
  by_cases h : byte.testBit 7 = true
  · rw [if_pos ((land_0x80 byte).2 h), if_pos h]
  · rw [if_neg (fun hh => h ((land_0x80 byte).1 hh)), if_neg h]

theorem shift_testBit (byte j : Nat) (hj : j < 7) :
    ((byte <<< 1) % 256).testBit (j + 1) = byte.testBit j := by
  have h256 : (256 : Nat) = 2 ^ 8 := by norm_num
  rw [h256, Nat.testBit_mod_two_pow, Nat.testBit_shiftLeft]
  have h1 : j + 1 < 8 := by omega
  simp [h1]

theorem bit_modes_eight (byte : Nat) :
    bit_modes 8 byte = (msb_bits byte).map drive := by
  simp only [bit_modes, bit_mode_eq, msb_bits, List.map_cons, List.map_nil]
  simp only [shift_testBit _ 6 (by omega), shift_testBit _ 5 (by omega),
    shift_testBit _ 4 (by omega), shift_testBit _ 3 (by omega), shift_testBit _ 2 (by omega),
    shift_testBit _ 1 (by omega), shift_testBit _ 0 (by omega)]

theorem sample_count_append (a b : List Event) :
    sample_count (a ++ b) = sample_count a + sample_count b := by
  induction a with
  | nil => simp [sample_count]
  | cons e a ih => cases e <;> simp [sample_count, ih]; omega

theorem sample_count_bits (ds : List DioMode) : sample_count (ds.flatMap ev_bit) = 0 := by
  induction ds with
  | nil => rfl
  | cons d ds ih =>
    rw [List.flatMap_cons, sample_count_append, ih]
    cases d <;> rfl

theorem sample_count_write_byte (byte : Nat) (level : Bool) :
    sample_count (ev_write_byte byte level) = 1 := by
  unfold ev_write_byte
  rw [sample_count_append, sample_count_bits]
  rfl

theorem i2c_write_byte_eq (slave : Slave) (byte : Nat) (s : Machine) :
    i2c_write_byte slave byte s =
      ((if slave s.reads then 0 else 1), replay (ev_write_byte byte (slave s.reads)) s) := by
  have hr : (replay (ev_scl GPIO_IN_0 ++ ev_delay) (replay (ev_sda GPIO_IN_0 ++ ev_delay)
      (replay (ev_scl GPIO_OUT_0 ++ ev_delay)
        (replay ((bit_modes 8 byte).flatMap ev_bit) s)))).reads = s.reads := by
    simp only [replay_reads, sample_count_bits]
    rfl
  simp only [i2c_write_byte, i2c_write_bits_eq, scl_low_eq, scl_release_eq, sda_release_eq,
    i2c_delay_eq, sda_read_eq, ← replay_append] at hr ⊢
  simp only [List.append_assoc] at hr ⊢
  rw [hr]
  refine Prod.ext ?_ ?_
  · cases slave s.reads <;> rfl
  · simp only [ev_write_byte, ev_ack, bit_modes_eight, List.append_assoc]

theorem samples_succ (slave : Slave) (r n : Nat) :
    samples slave r (n + 1) = slave r :: samples slave (r + 1) n := by
  unfold samples
  rw [List.range_succ_eq_map]
  simp [List.map_map, Function.comp_def, Nat.add_assoc, Nat.add_comm 1]

theorem i2c_read_bits_eq (slave : Slave) (n byte : Nat) (s : Machine) :
    i2c_read_bits slave n byte s =
      (shift_in byte (samples slave s.reads n),
       replay ((samples slave s.reads n).flatMap ev_rbit) s) := by
  induction n generalizing byte s with
  | zero => rfl
  | succ n ih =>
    have hr : (replay (ev_scl GPIO_OUT_0 ++ ev_delay ++ ev_delay ++ ev_scl GPIO_IN_0 ++
        ev_delay) s).reads = s.reads := by
      rw [replay_reads]; rfl
    have hr2 : (replay (ev_rbit (slave s.reads)) s).reads = s.reads + 1 := by
      rw [replay_reads]; rfl
    simp only [i2c_read_bits, scl_low_eq, scl_release_eq, i2c_delay_eq, sda_read_eq,
      ← replay_append, ih] at hr ⊢
    simp only [List.append_assoc] at hr ⊢
    rw [hr, samples_succ]
    simp only [ev_rbit, List.append_assoc] at hr2
    rw [hr2]
    refine Prod.ext ?_ ?_
    · simp only [shift_in, List.foldl_cons]
      cases slave s.reads <;> simp
    · simp only [List.flatMap_cons, replay_append, ev_rbit, List.append_assoc]

theorem shift_in_eq (levels : List Bool) (acc k : Nat) (hk : levels.length + k = 8)
    (hacc : acc < 2 ^ k) :
    shift_in acc levels = levels.foldl (fun a b => 2 * a + (if b then 1 else 0)) acc := by
  induction levels generalizing acc k with
  | nil => rfl
  | cons l ls ih =>
    have hk8 : k + 1 ≤ 8 := by simp at hk; omega
    have hpow : 2 ^ (k + 1) ≤ 2 ^ 8 := Nat.pow_le_pow_right (by norm_num) hk8
    have h2 : 2 * acc + 1 < 2 ^ (k + 1) := by rw [Nat.pow_succ]; omega
    have hsh : (acc <<< 1) % 256 = 2 * acc := by
      rw [Nat.shiftLeft_eq, Nat.pow_one, Nat.mod_eq_of_lt (by omega)]; omega
    have hor : (2 * acc) ||| 1 = 2 * acc + 1 := by
      have h := Nat.mul_add_lt_is_or (i := 1) (b := 1) (by norm_num) acc
      simpa using h.symm
    have hlen : ls.length + (k + 1) = 8 := by simp at hk; omega
    simp only [shift_in, List.foldl_cons] at ih ⊢
    cases l
    · simp only [hsh, Bool.false_eq_true, if_false, Nat.add_zero]
      exact ih (2 * acc) (k + 1) hlen (by omega)
    · simp only [hsh, hor, if_true]
      exact ih (2 * acc + 1) (k + 1) hlen h2

theorem samples_length (slave : Slave) (r n : Nat) : (samples slave r n).length = n := by
  simp [samples]

theorem shift_in_samples (slave : Slave) (r : Nat) :
    shift_in 0 (samples slave r 8) = of_bits (samples slave r 8) :=
  shift_in_eq _ 0 0 (by rw [samples_length]) (by norm_num)

theorem sample_count_rbits (ls : List Bool) :
    sample_count (ls.flatMap ev_rbit) = ls.length := by
  induction ls with
  | nil => rfl
  | cons l ls ih =>
    rw [List.flatMap_cons, sample_count_append, ih, List.length_cons]
    have : sample_count (ev_rbit l) = 1 := rfl
    omega

theorem sample_count_read_byte (ls : List Bool) (reply : DioMode) :
    sample_count (ev_read_byte ls reply) = ls.length := by
  unfold ev_read_byte
  simp only [sample_count_append, sample_count_rbits]
  cases reply <;> simp [ev_sda, ev_scl, ev_delay, sample_count]

theorem i2c_read_byte_eq (slave : Slave) (send_ack : Nat) (s : Machine) :
    i2c_read_byte slave send_ack s =
      (of_bits (samples slave s.reads 8),
       replay (ev_read_byte (samples slave s.reads 8) (reply_mode send_ack)) s) := by
  have hr : (replay (ev_sda GPIO_IN_0) s).reads = s.reads := by rw [replay_reads]; rfl
  have hif : ∀ t : Machine, (if send_ack ≠ 0 then sda_low t else sda_release t) =
      replay (ev_sda (reply_mode send_ack)) t := by
    intro t; unfold reply_mode; split <;> rfl
  simp only [i2c_read_byte, hif]
  simp only [i2c_read_bits_eq, scl_low_eq, scl_release_eq, sda_release_eq,
    i2c_delay_eq, ← replay_append, hr, shift_in_samples]
  simp only [ev_read_byte, List.append_assoc]

theorem ev_tx_cons (p : Nat × Bool) (log : List (Nat × Bool)) :
    ev_tx (p :: log) = ev_write_byte p.1 p.2 ++ ev_tx log := rfl

theorem replay_write_byte_reads (byte : Nat) (level : Bool) (s : Machine) :
    (replay (ev_write_byte byte level) s).reads = s.reads + 1 := by
  rw [replay_reads, sample_count_write_byte]

theorem I2C_Write_loop_eq (slave : Slave) (data n i : Nat) (s : Machine) :
    I2C_Write_loop slave data n i s =
      (tx_status (all_ack slave n s.reads),
       replay (ev_tx (tx_log slave (fun k => s.mem (data + k)) n i s.reads) ++ ev_stop) s) := by
  induction n generalizing i s with
  | zero => simp [I2C_Write_loop, i2c_stop_eq, tx_status, all_ack, tx_log, ev_tx]
  | succ n ih =>
    simp only [I2C_Write_loop, i2c_write_byte_eq, tx_log, all_ack, ev_tx_cons]
    cases hs : slave s.reads
    · simp only [if_neg, one_ne_zero, Bool.false_eq_true, ih, replay_write_byte_reads,
        replay_mem, Bool.not_false, Bool.true_and, not_false_eq_true, replay_append,
        List.append_assoc]
    · simp [i2c_stop_eq, tx_status, ev_tx, replay_append]

theorem replay_start_reads (s : Machine) : (replay ev_start s).reads = s.reads := by
  rw [replay_reads]; rfl

theorem I2C_Write_eq (slave : Slave) (slave_addr data length : Nat) (s : Machine) :
    I2C_Write slave slave_addr data length s =
      (tx_status (all_ack slave (length + 1) s.reads),
       replay (ev_start ++
         ev_tx ((addr_byte slave_addr 0, slave s.reads) ::
           (if slave s.reads then []
            else tx_log slave (fun k => s.mem (data + k)) length 0 (s.reads + 1))) ++
         ev_stop) s) := by
  simp only [I2C_Write, i2c_start_eq, i2c_write_byte_eq, replay_start_reads, all_ack,
    ev_tx_cons]
  cases hs : slave s.reads
  · simp only [if_neg, one_ne_zero, Bool.false_eq_true, I2C_Write_loop_eq,
      replay_write_byte_reads, replay_start_reads, replay_mem, Bool.not_false, Bool.true_and,
      not_false_eq_true, replay_append, List.append_assoc]
  · simp [i2c_stop_eq, tx_status, ev_tx, replay_append]

theorem replay_with_mem (es : List Event) (s : Machine) (m : Nat → Nat) :
    replay es (with_mem s m) = with_mem (replay es s) m := by
  induction es generalizing s with
  | nil => rfl
  | cons e es ih =>
    rw [replay_cons, replay_cons, ← ih]
    cases e <;> rfl

theorem replay_read_byte_reads (ls : List Bool) (reply : DioMode) (s : Machine) :
    (replay (ev_read_byte ls reply) s).reads = s.reads + ls.length := by
  rw [replay_reads, sample_count_read_byte]

theorem with_mem_reads (s : Machine) (m : Nat → Nat) : (with_mem s m).reads = s.reads := rfl

theorem with_mem_mem (s : Machine) (m : Nat → Nat) : (with_mem s m).mem = m := rfl

theorem with_mem_with_mem (s : Machine) (m k : Nat → Nat) :
    with_mem (with_mem s m) k = with_mem s k := rfl

theorem I2C_Read_loop_succ (slave : Slave) (data length n i : Nat) (s : Machine) :
    I2C_Read_loop slave data length (n + 1) i s =
      I2C_Read_loop slave data length n (i + 1)
        (with_mem (i2c_read_byte slave (send_ack_of length i) s).2
          (store (i2c_read_byte slave (send_ack_of length i) s).2.mem (data + i)
            (i2c_read_byte slave (send_ack_of length i) s).1)) := rfl

theorem I2C_Read_loop_eq (slave : Slave) (data length n i : Nat) (s : Machine) :
    I2C_Read_loop slave data length n i s =
      with_mem (replay (ev_rx slave length n i s.reads) s)
        (rx_mem slave data n i s.reads s.mem) := by
  induction n generalizing i s with
  | zero => rfl
  | succ n ih =>
    rw [I2C_Read_loop_succ, i2c_read_byte_eq, ih]
    simp only [with_mem_reads, with_mem_mem, replay_read_byte_reads, samples_length,
      replay_mem, replay_with_mem, with_mem_with_mem, ev_rx, rx_mem, replay_append]

theorem I2C_Read_eq (slave : Slave) (slave_addr data length : Nat) (s : Machine) :
    I2C_Read slave slave_addr data length s =
      if slave s.reads then
        (I2C_STATUS_NACK,
         replay (ev_start ++ ev_write_byte (addr_byte slave_addr 1) true ++ ev_stop) s)
      else
        (I2C_STATUS_OK,
         with_mem (replay (ev_start ++ ev_write_byte (addr_byte slave_addr 1) false ++
            ev_rx slave length length 0 (s.reads + 1) ++ ev_stop) s)
          (rx_mem slave data length 0 (s.reads + 1) s.mem)) := by
  simp only [I2C_Read, i2c_start_eq, i2c_write_byte_eq, replay_start_reads]
  cases hs : slave s.reads
  · simp only [if_neg, one_ne_zero, Bool.false_eq_true, I2C_Read_loop_eq,
      replay_write_byte_reads, replay_start_reads, replay_mem, not_false_eq_true,
      i2c_stop_eq, ← replay_with_mem, replay_append, List.append_assoc]
  · simp [i2c_stop_eq, replay_append]

theorem wire_eq_scan (sda scl : DioMode) (evs : List Event) :
    wire sda scl evs = scan none sda scl evs := rfl

theorem scan_nil (sda scl : DioMode) : scan none sda scl [] = [] := rfl

theorem scan_start (rest : List Event) :
    scan none GPIO_IN_0 GPIO_IN_0 (ev_start ++ rest) =
      Sym.START :: scan none GPIO_OUT_0 GPIO_OUT_0 rest := by
  simp [scan, edges, decode, ev_start, ev_sda, ev_scl, ev_delay, SDA_PIN, SCL_PIN]

theorem scan_stop (sda : DioMode) (rest : List Event) :
    scan none sda GPIO_OUT_0 (ev_stop ++ rest) =
      Sym.STOP :: scan none GPIO_IN_0 GPIO_IN_0 rest := by
  cases sda <;>
    simp [scan, edges, decode, ev_stop, ev_sda, ev_scl, ev_delay, SDA_PIN, SCL_PIN]

theorem scan_spin (n : Nat) (p : Option (DioMode × Option Bool)) (sda scl : DioMode)
    (rest : List Event) :
    scan p sda scl (Event.spin n :: rest) = scan p sda scl rest := by
  simp [scan, edges]

theorem scan_bit_first (sda d : DioMode) (rest : List Event) :
    scan none sda GPIO_OUT_0 (ev_bit d ++ rest) = scan (some (d, none)) d GPIO_IN_0 rest := by
  cases sda <;> cases d <;>
    simp [scan, edges, decode, ev_bit, ev_sda, ev_scl, ev_delay, SDA_PIN, SCL_PIN]

theorem scan_bit_next (d0 d : DioMode) (rest : List Event) :
    scan (some (d0, none)) d0 GPIO_IN_0 (ev_bit d ++ rest) =
      Sym.clk d0 none :: scan (some (d, none)) d GPIO_IN_0 rest := by
  cases d0 <;> cases d <;>
    simp [scan, edges, decode, ev_bit, ev_sda, ev_scl, ev_delay, SDA_PIN, SCL_PIN]

theorem scan_ack (d0 : DioMode) (level : Bool) (rest : List Event) :
    scan (some (d0, none)) d0 GPIO_IN_0 (ev_ack level ++ rest) =
      Sym.clk d0 none :: Sym.clk GPIO_IN_0 (some level) ::
        scan none GPIO_IN_0 GPIO_OUT_0 rest := by
  cases d0 <;>
    simp [scan, edges, decode, ev_ack, ev_read, ev_sda, ev_scl, ev_delay, SDA_PIN, SCL_PIN]

theorem scan_bits (ds : List DioMode) (d0 : DioMode) (level : Bool) (rest : List Event) :
    scan (some (d0, none)) d0 GPIO_IN_0 (ds.flatMap ev_bit ++ (ev_ack level ++ rest)) =
      (d0 :: ds).map (fun d => Sym.clk d none) ++
        (Sym.clk GPIO_IN_0 (some level) :: scan none GPIO_IN_0 GPIO_OUT_0 rest) := by
  induction ds generalizing d0 with
  | nil => simp [scan_ack]
  | cons d ds ih =>
    rw [List.flatMap_cons, List.append_assoc, scan_bit_next, ih]
    simp

theorem scan_write_byte (sda : DioMode) (byte : Nat) (level : Bool) (rest : List Event) :
    scan none sda GPIO_OUT_0 (ev_write_byte byte level ++ rest) =
      tx_frame byte level ++ scan none GPIO_IN_0 GPIO_OUT_0 rest := by
  have h : (msb_bits byte).map drive =
      drive (byte.testBit 7) :: [byte.testBit 6, byte.testBit 5, byte.testBit 4,
        byte.testBit 3, byte.testBit 2, byte.testBit 1, byte.testBit 0].map drive := rfl
  rw [ev_write_byte, h, List.flatMap_cons, List.append_assoc, List.append_assoc,
    scan_bit_first, scan_bits]
  simp [tx_frame, msb_bits]

theorem scan_tx (log : List (Nat × Bool)) (rest : List Event) :
    scan none GPIO_IN_0 GPIO_OUT_0 (ev_tx log ++ rest) =
      log.flatMap (fun p => tx_frame p.1 p.2) ++ scan none GPIO_IN_0 GPIO_OUT_0 rest := by
  induction log with
  | nil => rfl
  | cons p log ih =>
    rw [ev_tx_cons, List.append_assoc, scan_write_byte, ih]
    simp

theorem scan_rbit_first (l : Bool) (rest : List Event) :
    scan none GPIO_IN_0 GPIO_OUT_0 (ev_rbit l ++ rest) =
      scan (some (GPIO_IN_0, some l)) GPIO_IN_0 GPIO_IN_0 rest := by
  simp [scan, edges, decode, ev_rbit, ev_read, ev_sda, ev_scl, ev_delay, SDA_PIN, SCL_PIN]

theorem scan_rbit_next (l0 l : Bool) (rest : List Event) :
    scan (some (GPIO_IN_0, some l0)) GPIO_IN_0 GPIO_IN_0 (ev_rbit l ++ rest) =
      Sym.clk GPIO_IN_0 (some l0) :: scan (some (GPIO_IN_0, some l)) GPIO_IN_0 GPIO_IN_0 rest := by
  simp [scan, edges, decode, ev_rbit, ev_read, ev_sda, ev_scl, ev_delay, SDA_PIN, SCL_PIN]

theorem ev_read_byte_eq (levels : List Bool) (reply : DioMode) :
    ev_read_byte levels reply = ev_sda GPIO_IN_0 ++ (levels.flatMap ev_rbit ++ ev_reply reply) := by
  simp [ev_read_byte, ev_reply, List.append_assoc]

theorem scan_reply_first (reply : DioMode) (rest : List Event) :
    scan none GPIO_IN_0 GPIO_OUT_0 (ev_reply reply ++ rest) =
      Sym.clk reply none :: scan none GPIO_IN_0 GPIO_OUT_0 rest := by
  cases reply <;>
    simp [scan, edges, decode, ev_reply, ev_sda, ev_scl, ev_delay, SDA_PIN, SCL_PIN]

theorem scan_reply_next (l0 : Bool) (reply : DioMode) (rest : List Event) :
    scan (some (GPIO_IN_0, some l0)) GPIO_IN_0 GPIO_IN_0 (ev_reply reply ++ rest) =
      Sym.clk GPIO_IN_0 (some l0) :: Sym.clk reply none ::
        scan none GPIO_IN_0 GPIO_OUT_0 rest := by
  cases reply <;>
    simp [scan, edges, decode, ev_reply, ev_sda, ev_scl, ev_delay, SDA_PIN, SCL_PIN]

theorem scan_rbits (ls : List Bool) (l0 : Bool) (reply : DioMode) (rest : List Event) :
    scan (some (GPIO_IN_0, some l0)) GPIO_IN_0 GPIO_IN_0
        (ls.flatMap ev_rbit ++ (ev_reply reply ++ rest)) =
      (l0 :: ls).map (fun l => Sym.clk GPIO_IN_0 (some l)) ++
        (Sym.clk reply none :: scan none GPIO_IN_0 GPIO_OUT_0 rest) := by
  induction ls generalizing l0 with
  | nil => simp [scan_reply_next]
  | cons l ls ih =>
    rw [List.flatMap_cons, List.append_assoc, scan_rbit_next, ih]
    simp

theorem scan_sda_release (sda : DioMode) (rest : List Event) :
    scan none sda GPIO_OUT_0 (ev_sda GPIO_IN_0 ++ rest) = scan none GPIO_IN_0 GPIO_OUT_0 rest := by
  cases sda <;> simp [scan, edges, decode, ev_sda, SDA_PIN, SCL_PIN]

theorem scan_read_byte (sda : DioMode) (ls : List Bool) (reply : DioMode)
    (rest : List Event) :
    scan none sda GPIO_OUT_0 (ev_read_byte ls reply ++ rest) =
      rx_frame ls reply ++ scan none GPIO_IN_0 GPIO_OUT_0 rest := by
  rw [ev_read_byte_eq, List.append_assoc, scan_sda_release, List.append_assoc]
  cases ls with
  | nil => simp [scan_reply_first, rx_frame]
  | cons l ls =>
    rw [List.flatMap_cons, List.append_assoc, scan_rbit_first, scan_rbits]
    simp [rx_frame]

theorem tx_log_shift (slave : Slave) (byte : Nat → Nat) (n k r : Nat) :
    tx_log slave byte n (k + 1) r = tx_log slave (fun t => byte (t + 1)) n k r := by
  induction n generalizing k r with
  | zero => rfl
  | succ n ih => simp only [tx_log, ih]

theorem all_ack_iff (slave : Slave) (n r : Nat) :
    all_ack slave n r = true ↔ ∀ k, k < n → slave (r + k) = false := by
  induction n generalizing r with
  | zero => simp [all_ack]
  | succ n ih =>
    simp only [all_ack, Bool.and_eq_true, Bool.not_eq_true', ih]
    constructor
    · rintro ⟨h0, h⟩ k hk
      cases k with
      | zero => simpa using h0
      | succ k =>
        have := h k (by omega)
        rwa [Nat.add_assoc, Nat.add_comm 1 k] at this
    · intro h
      refine ⟨by simpa using h 0 (by omega), fun k hk => ?_⟩
      have := h (k + 1) (by omega)
      rwa [Nat.add_assoc, Nat.add_comm 1 k]

theorem tx_log_ack (slave : Slave) (byte : Nat → Nat) (n k r : Nat)
    (h : ∀ t, t < n → slave (r + t) = false) :
    tx_log slave byte n k r = (List.range n).map (fun t => (byte (k + t), false)) := by
  induction n generalizing k r with
  | zero => rfl
  | succ n ih =>
    have h0 : slave r = false := by simpa using h 0 (by omega)
    have hn : ∀ t, t < n → slave (r + 1 + t) = false := by
      intro t ht
      have := h (t + 1) (by omega)
      rwa [Nat.add_assoc, Nat.add_comm 1 t]
    simp only [tx_log, h0, Bool.false_eq_true, if_false, ih (k + 1) (r + 1) hn,
      List.range_succ_eq_map, List.map_cons, List.map_map, Nat.add_zero]
    congr 1
    apply List.map_congr_left
    intro t _
    simp [Nat.add_assoc, Nat.add_comm 1 t]

theorem tx_log_nack (slave : Slave) (byte : Nat → Nat) (n k r j : Nat) (hj : j < n)
    (h : ∀ t, t < j → slave (r + t) = false) (hn : slave (r + j) = true) :
    tx_log slave byte n k r =
      (List.range (j + 1)).map (fun t => (byte (k + t), decide (t = j))) := by
  induction n generalizing k r j with
  | zero => omega
  | succ n ih =>
    cases j with
    | zero =>
      have h0 : slave r = true := by simpa using hn
      simp [tx_log, h0, List.range_succ]
    | succ j =>
      have h0 : slave r = false := by simpa using h 0 (by omega)
      have hlt : ∀ t, t < j → slave (r + 1 + t) = false := by
        intro t ht
        have := h (t + 1) (by omega)
        rwa [Nat.add_assoc, Nat.add_comm 1 t]
      have hnj : slave (r + 1 + j) = true := by
        rwa [Nat.add_assoc, Nat.add_comm 1 j]
      rw [List.range_succ_eq_map]
      simp only [tx_log, h0, Bool.false_eq_true, if_false,
        ih (k + 1) (r + 1) j (by omega) hlt hnj, List.map_cons, List.map_map, Nat.add_zero]
      simp only [List.range_succ_eq_map, List.map_cons, List.map_map, Function.comp_def,
        Nat.add_zero, Nat.add_assoc, Nat.add_comm 1, Nat.succ_eq_add_one, Nat.add_right_cancel_iff,
        List.cons.injEq, true_and]
      simp

theorem I2C_Write_closed (slave : Slave) (slave_addr data length : Nat) (s : Machine) :
    I2C_Write slave slave_addr data length s =
      (tx_status (all_ack slave (length + 1) s.reads),
       replay (ev_start ++
         (ev_tx (tx_log slave (tx_byte slave_addr data s.mem) (length + 1) 0 s.reads) ++
           ev_stop)) s) := by
  rw [I2C_Write_eq]
  have h : tx_log slave (tx_byte slave_addr data s.mem) (length + 1) 0 s.reads =
      (addr_byte slave_addr 0, slave s.reads) ::
        (if slave s.reads then []
         else tx_log slave (fun k => s.mem (data + k)) length 0 (s.reads + 1)) := by
    simp only [tx_log, tx_log_shift, tx_byte]
  rw [h, List.append_assoc]

theorem since_replay (es : List Event) (s : Machine) : since s (replay es s) = es := by
  simp [since, replay_trace]

theorem since_with_mem (s t : Machine) (m : Nat → Nat) : since s (with_mem t m) = since s t :=
  rfl

theorem scan_tx_any (sda : DioMode) (log : List (Nat × Bool)) (rest : List Event) :
    scan none sda GPIO_OUT_0 (ev_tx log ++ (ev_stop ++ rest)) =
      tx_frames log ++ (Sym.STOP :: scan none GPIO_IN_0 GPIO_IN_0 rest) := by
  cases log with
  | nil => simp [ev_tx, tx_frames, scan_stop]
  | cons p log =>
    rw [ev_tx_cons, List.append_assoc, scan_write_byte, scan_tx, scan_stop]
    simp [tx_frames]

theorem wire_write (log : List (Nat × Bool)) :
    wire GPIO_IN_0 GPIO_IN_0 (ev_start ++ (ev_tx log ++ ev_stop)) =
      Sym.START :: (tx_frames log ++ [Sym.STOP]) := by
  have h := scan_tx_any GPIO_OUT_0 log []
  rw [List.append_nil, scan_nil] at h
  rw [wire_eq_scan, scan_start, h]

theorem tx_frames_map (f : Nat → Nat × Bool) (l : List Nat) :
    tx_frames (l.map f) = l.flatMap (fun k => tx_frame (f k).1 (f k).2) := by
  simp [tx_frames, List.flatMap_map, Function.comp_def]

theorem bus_wire_replay (s : Machine) (es : List Event) (h : idle s) :
    bus_wire s (replay es s) = wire GPIO_IN_0 GPIO_IN_0 es := by
  rw [bus_wire, since_replay, h.1, h.2]

theorem tx_status_ok_iff (b : Bool) : tx_status b = I2C_STATUS_OK ↔ b = true := by
  cases b <;> simp [tx_status]

/-- C1: `I2C_Write` returns `I2C_STATUS_OK` exactly when the acknowledge sample of
the address byte and of each of the `length` payload bytes is low; it never
returns anything but OK or NACK; and when the first byte not acknowledged is
byte number `j` of the transfer (0 is the address byte), the status is NACK and
the bus carries START, bytes 0 to `j` (the last one with NACK) and STOP, so no
later payload byte is put on the wire. -/
theorem I2C_Write_ok_iff_all_acked (slave : Slave) (slave_addr data length : Nat)
    (s : Machine) (hidle : idle s) :
    ((I2C_Write slave slave_addr data length s).1 = I2C_STATUS_OK ↔
        ∀ k, k ≤ length → slave (s.reads + k) = false) ∧
    ((I2C_Write slave slave_addr data length s).1 = I2C_STATUS_OK ∨
      (I2C_Write slave slave_addr data length s).1 = I2C_STATUS_NACK) ∧
    ∀ j, j ≤ length → (∀ k, k < j → slave (s.reads + k) = false) →
      slave (s.reads + j) = true →
      (I2C_Write slave slave_addr data length s).1 = I2C_STATUS_NACK ∧
      bus_wire s (I2C_Write slave slave_addr data length s).2 =
        Sym.START ::
          ((List.range (j + 1)).flatMap
              (fun k => tx_frame (tx_byte slave_addr data s.mem k) (decide (k = j))) ++
            [Sym.STOP]) := by
  rw [I2C_Write_closed]
  refine ⟨?_, ?_, ?_⟩
  · rw [tx_status_ok_iff, all_ack_iff]
    exact ⟨fun h k hk => h k (by omega), fun h k hk => h k (by omega)⟩
  · cases all_ack slave (length + 1) s.reads <;> simp [tx_status]
  · intro j hj hlt hn
    have hno : all_ack slave (length + 1) s.reads = false := by
      cases hall : all_ack slave (length + 1) s.reads
      · rfl
      · have := (all_ack_iff slave (length + 1) s.reads).1 hall j (by omega)
        rw [hn] at this
        cases this
    refine ⟨by simp [hno, tx_status], ?_⟩
    simp only []
    rw [bus_wire_replay _ _ hidle, wire_write,
      tx_log_nack slave _ (length + 1) 0 s.reads j (by omega) hlt hn, tx_frames_map]
    simp

/-- Witness for C1: sending two payload bytes to address 0x55 when the first
payload byte is not acknowledged puts 0xAA and 0x2A on the bus and nothing
else. -/
theorem I2C_Write_ok_iff_all_acked_witness :
    idle demo_machine ∧
    (I2C_Write demo_nack_second 0x55 100 2 demo_machine).1 = I2C_STATUS_NACK ∧
    bus_wire demo_machine (I2C_Write demo_nack_second 0x55 100 2 demo_machine).2 =
      Sym.START ::
        ((List.range (1 + 1)).flatMap
            (fun k => tx_frame (tx_byte 0x55 100 demo_machine.mem k) (decide (k = 1))) ++
          [Sym.STOP]) :=
  ⟨by decide,
   (I2C_Write_ok_iff_all_acked demo_nack_second 0x55 100 2 demo_machine (by decide)).2.2 1
     (by decide) (by decide) (by decide)⟩

theorem scan_rx (slave : Slave) (length n i r : Nat) (rest : List Event) :
    scan none GPIO_IN_0 GPIO_OUT_0 (ev_rx slave length n i r ++ rest) =
      rx_frames slave length n i r ++ scan none GPIO_IN_0 GPIO_OUT_0 rest := by
  induction n generalizing i r with
  | zero => rfl
  | succ n ih =>
    rw [ev_rx, List.append_assoc, scan_read_byte, ih, rx_frames, List.append_assoc]

theorem wire_address_only (byte : Nat) (level : Bool) :
    wire GPIO_IN_0 GPIO_IN_0 (ev_start ++ ev_write_byte byte level ++ ev_stop) =
      Sym.START :: (tx_frame byte level ++ [Sym.STOP]) := by
  have h := scan_stop GPIO_IN_0 []
  rw [List.append_nil, scan_nil] at h
  rw [wire_eq_scan, List.append_assoc, scan_start, scan_write_byte, h]

theorem wire_read (slave : Slave) (byte length r : Nat) :
    wire GPIO_IN_0 GPIO_IN_0
        (ev_start ++ ev_write_byte byte false ++ ev_rx slave length length 0 r ++ ev_stop) =
      Sym.START :: (tx_frame byte false ++ (rx_frames slave length length 0 r ++ [Sym.STOP])) := by
  have h := scan_stop GPIO_IN_0 []
  rw [List.append_nil, scan_nil] at h
  rw [wire_eq_scan, List.append_assoc, List.append_assoc, scan_start, scan_write_byte, scan_rx, h]

theorem pulses_append (a b : List Sym) : pulses (a ++ b) = pulses a + pulses b := by
  simp [pulses]

theorem pulses_tx_frame (byte : Nat) (level : Bool) : pulses (tx_frame byte level) = 9 := by
  simp [pulses, tx_frame, msb_bits]

theorem pulses_address_only (byte : Nat) (level : Bool) :
    pulses (Sym.START :: (tx_frame byte level ++ [Sym.STOP])) = 9 := by
  have h : Sym.START :: (tx_frame byte level ++ [Sym.STOP]) =
      [Sym.START] ++ (tx_frame byte level ++ [Sym.STOP]) := rfl
  rw [h, pulses_append, pulses_append, pulses_tx_frame]
  rfl

theorem I2C_Write_address_nack (slave : Slave) (slave_addr data length : Nat) (s : Machine)
    (hnack : slave s.reads = true) :
    I2C_Write slave slave_addr data length s =
      (I2C_STATUS_NACK,
       replay (ev_start ++ ev_write_byte (addr_byte slave_addr 0) true ++ ev_stop) s) := by
  rw [I2C_Write_eq]
  simp [hnack, all_ack, tx_status, ev_tx]

theorem I2C_Read_address_nack (slave : Slave) (slave_addr data length : Nat) (s : Machine)
    (hnack : slave s.reads = true) :
    I2C_Read slave slave_addr data length s =
      (I2C_STATUS_NACK,
       replay (ev_start ++ ev_write_byte (addr_byte slave_addr 1) true ++ ev_stop) s) := by
  rw [I2C_Read_eq, if_pos hnack]

/-- C2: when the acknowledge sample of the address byte is high, `I2C_Write` and
`I2C_Read` both return `I2C_STATUS_NACK`, the bus carries exactly START, the
address byte followed by the NACK slot, and STOP (nine clock pulses in all, so
no data byte in either direction), and memory, hence the receive buffer of
`I2C_Read`, is unchanged. -/
theorem address_nack_aborts (slave : Slave) (slave_addr tx_data tx_length rx_data rx_length : Nat)
    (s : Machine) (hidle : idle s) (hnack : slave s.reads = true) :
    (I2C_Write slave slave_addr tx_data tx_length s).1 = I2C_STATUS_NACK ∧
    (I2C_Read slave slave_addr rx_data rx_length s).1 = I2C_STATUS_NACK ∧
    bus_wire s (I2C_Write slave slave_addr tx_data tx_length s).2 =
      Sym.START :: (tx_frame (addr_byte slave_addr 0) true ++ [Sym.STOP]) ∧
    bus_wire s (I2C_Read slave slave_addr rx_data rx_length s).2 =
      Sym.START :: (tx_frame (addr_byte slave_addr 1) true ++ [Sym.STOP]) ∧
    pulses (bus_wire s (I2C_Write slave slave_addr tx_data tx_length s).2) = 9 ∧
    pulses (bus_wire s (I2C_Read slave slave_addr rx_data rx_length s).2) = 9 ∧
    (I2C_Read slave slave_addr rx_data rx_length s).2.mem = s.mem := by
  rw [I2C_Write_address_nack _ _ _ _ _ hnack, I2C_Read_address_nack _ _ _ _ _ hnack]
  simp only [bus_wire_replay _ _ hidle, wire_address_only, pulses_address_only, replay_mem,
    and_self]

/-- Witness for C2: against a slave that never pulls SDA low, writing one byte
to, or reading one byte from, address 0x55 gives NACK after nine pulses. -/
theorem address_nack_aborts_witness :
    idle demo_machine ∧ demo_absent demo_machine.reads = true ∧
    (I2C_Write demo_absent 0x55 100 1 demo_machine).1 = I2C_STATUS_NACK ∧
    (I2C_Read demo_absent 0x55 200 1 demo_machine).1 = I2C_STATUS_NACK ∧
    bus_wire demo_machine (I2C_Write demo_absent 0x55 100 1 demo_machine).2 =
      Sym.START :: (tx_frame (addr_byte 0x55 0) true ++ [Sym.STOP]) ∧
    bus_wire demo_machine (I2C_Read demo_absent 0x55 200 1 demo_machine).2 =
      Sym.START :: (tx_frame (addr_byte 0x55 1) true ++ [Sym.STOP]) ∧
    pulses (bus_wire demo_machine (I2C_Write demo_absent 0x55 100 1 demo_machine).2) = 9 ∧
    pulses (bus_wire demo_machine (I2C_Read demo_absent 0x55 200 1 demo_machine).2) = 9 ∧
    (I2C_Read demo_absent 0x55 200 1 demo_machine).2.mem = demo_machine.mem :=
  ⟨by decide, rfl,
   address_nack_aborts demo_absent 0x55 100 1 200 1 demo_machine (by decide) rfl⟩

theorem bit_val (x i k : Nat) (hk : k = 2 ^ i) :
    (if x.testBit i = true then 1 else 0) = x / k % 2 := by
  subst hk
  rw [Nat.testBit_to_div_mod]
  have h : x / 2 ^ i % 2 < 2 := Nat.mod_lt _ (by norm_num)
  by_cases h1 : x / 2 ^ i % 2 = 1
  · simp [h1]
  · simp [h1]; omega

theorem of_bits_msb_bits (byte : Nat) : of_bits (msb_bits byte) = byte % 256 := by
  have h7 := bit_val byte 7 128 (by norm_num)
  have h6 := bit_val byte 6 64 (by norm_num)
  have h5 := bit_val byte 5 32 (by norm_num)
  have h4 := bit_val byte 4 16 (by norm_num)
  have h3 := bit_val byte 3 8 (by norm_num)
  have h2 := bit_val byte 2 4 (by norm_num)
  have h1 := bit_val byte 1 2 (by norm_num)
  have h0 := bit_val byte 0 1 (by norm_num)
  have key : 2 * (2 * (2 * (2 * (2 * (2 * (2 * (2 * 0 + byte / 128 % 2) + byte / 64 % 2) +
      byte / 32 % 2) + byte / 16 % 2) + byte / 8 % 2) + byte / 4 % 2) + byte / 2 % 2) +
      byte / 1 % 2 = byte % 256 := by omega
  simp only [of_bits, msb_bits, List.foldl_cons, List.foldl_nil, h7, h6, h5, h4, h3, h2, h1,
    h0]
  exact key

theorem wire_bit_drive (b : Bool) : wire_bit (Sym.clk (drive b) none) = b := by
  cases b <;> rfl

theorem first_byte_frame (byte : Nat) (level : Bool) (rest : List Sym) :
    first_byte (Sym.START :: (tx_frame byte level ++ rest)) = byte % 256 := by
  rw [← of_bits_msb_bits]
  simp [first_byte, tx_frame, msb_bits, wire_bit_drive]

theorem addr_byte_write (addr : Nat) (h : addr ≤ 0x7F) : addr_byte addr 0 = addr <<< 1 := by
  rw [addr_byte, Nat.or_zero, Nat.shiftLeft_eq, Nat.mod_eq_of_lt (by omega)]

theorem shift_or_one (addr : Nat) : (addr <<< 1) ||| 1 = 2 * addr + 1 := by
  have h := Nat.mul_add_lt_is_or (i := 1) (b := 1) (by norm_num) addr
  rw [Nat.shiftLeft_eq, Nat.pow_one, Nat.mul_comm]
  simpa using h.symm

theorem addr_byte_read (addr : Nat) (h : addr ≤ 0x7F) :
    addr_byte addr 1 = (addr <<< 1) ||| 1 := by
  rw [addr_byte, shift_or_one, Nat.mod_eq_of_lt (by omega)]

theorem tx_frames_cons (p : Nat × Bool) (log : List (Nat × Bool)) :
    tx_frames (p :: log) = tx_frame p.1 p.2 ++ tx_frames log := rfl

theorem bus_wire_write (slave : Slave) (slave_addr data length : Nat) (s : Machine)
    (hidle : idle s) :
    bus_wire s (I2C_Write slave slave_addr data length s).2 =
      Sym.START ::
        (tx_frames (tx_log slave (tx_byte slave_addr data s.mem) (length + 1) 0 s.reads) ++
          [Sym.STOP]) := by
  rw [I2C_Write_closed]
  simp only []
  rw [bus_wire_replay _ _ hidle, wire_write]

theorem bus_wire_read_nack (slave : Slave) (slave_addr data length : Nat) (s : Machine)
    (hidle : idle s) (hnack : slave s.reads = true) :
    bus_wire s (I2C_Read slave slave_addr data length s).2 =
      Sym.START :: (tx_frame (addr_byte slave_addr 1) true ++ [Sym.STOP]) := by
  rw [I2C_Read_address_nack _ _ _ _ _ hnack]
  simp only []
  rw [bus_wire_replay _ _ hidle, wire_address_only]

theorem bus_wire_read_ack (slave : Slave) (slave_addr data length : Nat) (s : Machine)
    (hidle : idle s) (hack : slave s.reads = false) :
    bus_wire s (I2C_Read slave slave_addr data length s).2 =
      Sym.START :: (tx_frame (addr_byte slave_addr 1) false ++
        (rx_frames slave length length 0 (s.reads + 1) ++ [Sym.STOP])) := by
  rw [I2C_Read_eq, hack]
  simp only [Bool.false_eq_true, if_false]
  rw [bus_wire, since_with_mem, since_replay, hidle.1, hidle.2, wire_read]

theorem bus_wire_read_head (slave : Slave) (slave_addr data length : Nat) (s : Machine)
    (hidle : idle s) :
    ∃ level rest, bus_wire s (I2C_Read slave slave_addr data length s).2 =
      Sym.START :: (tx_frame (addr_byte slave_addr 1) level ++ rest) := by
  cases h : slave s.reads
  · exact ⟨false, _, bus_wire_read_ack slave slave_addr data length s hidle h⟩
  · exact ⟨true, _, bus_wire_read_nack slave slave_addr data length s hidle h⟩

theorem bus_wire_write_head (slave : Slave) (slave_addr data length : Nat) (s : Machine)
    (hidle : idle s) :
    ∃ level rest, bus_wire s (I2C_Write slave slave_addr data length s).2 =
      Sym.START :: (tx_frame (addr_byte slave_addr 0) level ++ rest) := by
  refine ⟨slave s.reads,
    tx_frames (if slave s.reads then []
      else tx_log slave (tx_byte slave_addr data s.mem) length (0 + 1) (s.reads + 1)) ++
      [Sym.STOP], ?_⟩
  rw [bus_wire_write _ _ _ _ _ hidle]
  simp only [tx_log, tx_frames_cons, tx_byte, List.append_assoc]

/-- C3: for a 7-bit slave address, the transaction of `I2C_Write` opens with START
and the byte `addr << 1`, and that of `I2C_Read` with START and the byte
`(addr << 1) | 1`. -/
theorem address_byte_on_wire (slave : Slave) (addr data length : Nat) (s : Machine)
    (hidle : idle s) (haddr : addr ≤ 0x7F) :
    (bus_wire s (I2C_Write slave addr data length s).2).head? = some Sym.START ∧
    first_byte (bus_wire s (I2C_Write slave addr data length s).2) = addr <<< 1 ∧
    (bus_wire s (I2C_Read slave addr data length s).2).head? = some Sym.START ∧
    first_byte (bus_wire s (I2C_Read slave addr data length s).2) = (addr <<< 1) ||| 1 := by
  obtain ⟨lw, restw, hw⟩ := bus_wire_write_head slave addr data length s hidle
  obtain ⟨lr, restr, hr⟩ := bus_wire_read_head slave addr data length s hidle
  have hlt0 : addr_byte addr 0 < 256 := Nat.mod_lt _ (by norm_num)
  have hlt1 : addr_byte addr 1 < 256 := Nat.mod_lt _ (by norm_num)
  rw [hw, hr, first_byte_frame, first_byte_frame, Nat.mod_eq_of_lt hlt0,
    Nat.mod_eq_of_lt hlt1, addr_byte_write addr haddr, addr_byte_read addr haddr]
  exact ⟨rfl, rfl, rfl, rfl⟩

/-- Witness for C3: address 0x55 gives 0xAA on a write and 0xAB on a read. -/
theorem address_byte_on_wire_witness :
    (idle demo_machine ∧ (0x55 : Nat) ≤ 0x7F ∧ (0x55 : Nat) <<< 1 = 0xAA ∧
      ((0x55 : Nat) <<< 1) ||| 1 = 0xAB) ∧
    (bus_wire demo_machine (I2C_Write demo_all_low 0x55 100 1 demo_machine).2).head? =
      some Sym.START ∧
    first_byte (bus_wire demo_machine (I2C_Write demo_all_low 0x55 100 1 demo_machine).2) =
      0x55 <<< 1 ∧
    (bus_wire demo_machine (I2C_Read demo_all_low 0x55 100 1 demo_machine).2).head? =
      some Sym.START ∧
    first_byte (bus_wire demo_machine (I2C_Read demo_all_low 0x55 100 1 demo_machine).2) =
      (0x55 <<< 1) ||| 1 :=
  ⟨⟨by decide, by decide, by decide, by decide⟩,
   address_byte_on_wire demo_all_low 0x55 100 1 demo_machine (by decide) (by decide)⟩

theorem scan_bit_first_any (sda scl d : DioMode) (rest : List Event) :
    scan none sda scl (ev_bit d ++ rest) = scan (some (d, none)) d GPIO_IN_0 rest := by
  cases sda <;> cases scl <;> cases d <;>
    simp [scan, edges, decode, ev_bit, ev_sda, ev_scl, ev_delay, SDA_PIN, SCL_PIN]

theorem scan_write_byte_any (sda scl : DioMode) (byte : Nat) (level : Bool)
    (rest : List Event) :
    scan none sda scl (ev_write_byte byte level ++ rest) =
      tx_frame byte level ++ scan none GPIO_IN_0 GPIO_OUT_0 rest := by
  have h : (msb_bits byte).map drive =
      drive (byte.testBit 7) :: [byte.testBit 6, byte.testBit 5, byte.testBit 4,
        byte.testBit 3, byte.testBit 2, byte.testBit 1, byte.testBit 0].map drive := rfl
  rw [ev_write_byte, h, List.flatMap_cons, List.append_assoc, List.append_assoc,
    scan_bit_first_any, scan_bits]
  simp [tx_frame, msb_bits]

theorem bus_wire_write_byte (slave : Slave) (byte : Nat) (t : Machine) :
    bus_wire t (i2c_write_byte slave byte t).2 = tx_frame byte (slave t.reads) := by
  rw [i2c_write_byte_eq]
  simp only []
  have h := scan_write_byte_any t.sda t.scl byte (slave t.reads) []
  rw [List.append_nil, scan_nil, List.append_nil] at h
  rw [bus_wire, since_replay, wire_eq_scan, h]

theorem tx_frame_get (byte : Nat) (level : Bool) (k : Nat) (hk : k < 8) :
    (tx_frame byte level)[k]? = some (Sym.clk (drive (byte.testBit (7 - k))) none) := by
  interval_cases k <;> simp [tx_frame, msb_bits]

/-- C4: `i2c_write_byte(B)` makes eight data clock pulses followed by the
acknowledge pulse, nine in all; during pulse `k` (0 to 7) the master has SDA
released if bit `7 - k` of `B` is 1 and driven low if it is 0, so the bits go
out from bit 7 to bit 0.  In a fully acknowledged `I2C_Write` the bus carries
START, the address byte, `data[0]`, ..., `data[length - 1]` in this order, each
acknowledged, and STOP. -/
theorem write_byte_msb_first_in_buffer_order (slave : Slave) (slave_addr data length : Nat)
    (s : Machine) (hidle : idle s) (hack : ∀ k, k ≤ length → slave (s.reads + k) = false) :
    (∀ (t : Machine) (B : Nat),
      bus_wire t (i2c_write_byte slave B t).2 = tx_frame B (slave t.reads) ∧
      (bus_wire t (i2c_write_byte slave B t).2).length = 9 ∧
      (∀ k, k < 8 → (bus_wire t (i2c_write_byte slave B t).2)[k]? =
        some (Sym.clk (if B.testBit (7 - k) then GPIO_IN_0 else GPIO_OUT_0) none)) ∧
      (bus_wire t (i2c_write_byte slave B t).2)[8]? =
        some (Sym.clk GPIO_IN_0 (some (slave t.reads)))) ∧
    bus_wire s (I2C_Write slave slave_addr data length s).2 =
      Sym.START :: (tx_frame (addr_byte slave_addr 0) false ++
        ((List.range length).flatMap (fun i => tx_frame (s.mem (data + i)) false) ++
          [Sym.STOP])) := by
  constructor
  · intro t B
    rw [bus_wire_write_byte]
    refine ⟨rfl, by simp [tx_frame, msb_bits], fun k hk => ?_, by simp [tx_frame, msb_bits]⟩
    rw [tx_frame_get B _ k hk]
    rfl
  · rw [bus_wire_write _ _ _ _ _ hidle,
      tx_log_ack slave _ (length + 1) 0 s.reads (fun t ht => hack t (by omega)),
      tx_frames_map, List.range_succ_eq_map]
    simp [tx_byte, List.flatMap_map, Function.comp_def]

/-- Witness for C4: two payload bytes sent to an acknowledging slave at 0x55. -/
theorem write_byte_msb_first_in_buffer_order_witness :
    (idle demo_machine ∧ ∀ k, k ≤ 2 → demo_all_low (demo_machine.reads + k) = false) ∧
    (∀ (t : Machine) (B : Nat),
      bus_wire t (i2c_write_byte demo_all_low B t).2 = tx_frame B (demo_all_low t.reads) ∧
      (bus_wire t (i2c_write_byte demo_all_low B t).2).length = 9 ∧
      (∀ k, k < 8 → (bus_wire t (i2c_write_byte demo_all_low B t).2)[k]? =
        some (Sym.clk (if B.testBit (7 - k) then GPIO_IN_0 else GPIO_OUT_0) none)) ∧
      (bus_wire t (i2c_write_byte demo_all_low B t).2)[8]? =
        some (Sym.clk GPIO_IN_0 (some (demo_all_low t.reads)))) ∧
    bus_wire demo_machine (I2C_Write demo_all_low 0x55 100 2 demo_machine).2 =
      Sym.START :: (tx_frame (addr_byte 0x55 0) false ++
        ((List.range 2).flatMap (fun i => tx_frame (demo_machine.mem (100 + i)) false) ++
          [Sym.STOP])) :=
  ⟨⟨by decide, fun _ _ => rfl⟩,
   write_byte_msb_first_in_buffer_order demo_all_low 0x55 100 2 demo_machine (by decide)
     (fun _ _ => rfl)⟩

theorem store_same (m : Nat → Nat) (a v : Nat) : store m a v a = v := by
  simp [store]

theorem store_other (m : Nat → Nat) (a v b : Nat) (h : b ≠ a) : store m a v b = m b := by
  simp [store, h]

theorem rx_mem_outside (slave : Slave) (data n i r : Nat) (m : Nat → Nat) (a : Nat)
    (h : a < data + i ∨ data + i + n ≤ a) :
    rx_mem slave data n i r m a = m a := by
  induction n generalizing i r m with
  | zero => rfl
  | succ n ih =>
    rw [rx_mem, ih (i + 1) (r + 8) _ (by omega), store_other _ _ _ _ (by omega)]

theorem rx_mem_inside (slave : Slave) (data n i r : Nat) (m : Nat → Nat) (k : Nat)
    (hk : k < n) :
    rx_mem slave data n i r m (data + i + k) = of_bits (samples slave (r + 8 * k) 8) := by
  induction n generalizing i r m k with
  | zero => omega
  | succ n ih =>
    rw [rx_mem]
    cases k with
    | zero =>
      rw [rx_mem_outside _ _ _ _ _ _ _ (by omega)]
      simp [store_same]
    | succ k =>
      have h := ih (i + 1) (r + 8) (store m (data + i) (of_bits (samples slave r 8))) k
        (by omega)
      have e1 : data + (i + 1) + k = data + i + (k + 1) := by omega
      have e2 : r + 8 + 8 * k = r + 8 * (k + 1) := by omega
      rw [e1, e2] at h
      exact h

theorem I2C_Write_mem (slave : Slave) (slave_addr data length : Nat) (s : Machine) :
    (I2C_Write slave slave_addr data length s).2.mem = s.mem := by
  rw [I2C_Write_closed]
  exact replay_mem _ _

theorem I2C_Read_mem_ack (slave : Slave) (slave_addr data length : Nat) (s : Machine)
    (hack : slave s.reads = false) :
    (I2C_Read slave slave_addr data length s).2.mem =
      rx_mem slave data length 0 (s.reads + 1) s.mem := by
  rw [I2C_Read_eq, hack]
  rfl

theorem busy_wait_reads (n : Nat) (s : Machine) : (busy_wait n s).reads = s.reads := rfl

theorem I2C_WriteRead_eq (slave : Slave) (slave_addr tx_data tx_length rx_data rx_length : Nat)
    (s : Machine) :
    I2C_WriteRead slave slave_addr tx_data tx_length rx_data rx_length s =
      if (I2C_Write slave slave_addr tx_data tx_length s).1 = I2C_STATUS_OK then
        I2C_Read slave slave_addr rx_data rx_length
          (busy_wait 50000 (I2C_Write slave slave_addr tx_data tx_length s).2)
      else I2C_Write slave slave_addr tx_data tx_length s := by
  unfold I2C_WriteRead
  by_cases h : (I2C_Write slave slave_addr tx_data tx_length s).1 = I2C_STATUS_OK
  · simp [h]
  · simp [h]

theorem reply_mode_send_ack (length i : Nat) :
    reply_mode (send_ack_of length i) = if i + 1 < length then GPIO_OUT_0 else GPIO_IN_0 := by
  unfold reply_mode send_ack_of
  by_cases h : i + 1 < length
  · have h2 : (i : Int) < (length : Int) - 1 := by omega
    simp [h, h2]
  · have h2 : ¬ (i : Int) < (length : Int) - 1 := by omega
    simp [h, h2]

theorem rx_frames_range (slave : Slave) (length n i r : Nat) :
    rx_frames slave length n i r =
      (List.range n).flatMap (fun k =>
        rx_frame (samples slave (r + 8 * k) 8)
          (if i + k + 1 < length then GPIO_OUT_0 else GPIO_IN_0)) := by
  induction n generalizing i r with
  | zero => rfl
  | succ n ih =>
    rw [rx_frames, ih, reply_mode_send_ack, List.range_succ_eq_map, List.flatMap_cons,
      List.flatMap_map]
    simp only [Nat.mul_zero, Nat.add_zero, Function.comp_def, Nat.succ_eq_add_one]
    congr 1
    apply List.flatMap_congr
    intro k _
    have e1 : r + 8 + 8 * k = r + 8 * (k + 1) := by omega
    have e2 : i + 1 + k + 1 = i + (k + 1) + 1 := by omega
    rw [e1, e2]

theorem I2C_Read_status (slave : Slave) (slave_addr data length : Nat) (s : Machine) :
    (I2C_Read slave slave_addr data length s).1 =
      if slave s.reads then I2C_STATUS_NACK else I2C_STATUS_OK := by
  rw [I2C_Read_eq]
  split <;> rfl

/-- C6: in an `I2C_Read` of `N` bytes whose address byte is acknowledged, the
status is OK and the bus carries START, the address byte with ACK, then for
each `i < N` eight sampled pulses followed by a ninth pulse during which the
master holds SDA low (ACK) when `i + 1 < N` and leaves it released (NACK) when
`i = N - 1`, then STOP.  For `N = 1` the single byte is answered with NACK; for
`N = 0` there is no data pulse and no master acknowledge slot at all. -/
theorem read_ack_discipline (slave : Slave) (slave_addr data N : Nat) (s : Machine)
    (hidle : idle s) (hack : slave s.reads = false) :
    (I2C_Read slave slave_addr data N s).1 = I2C_STATUS_OK ∧
    bus_wire s (I2C_Read slave slave_addr data N s).2 =
      Sym.START :: (tx_frame (addr_byte slave_addr 1) false ++
        ((List.range N).flatMap (fun i =>
            rx_frame (samples slave (s.reads + 1 + 8 * i) 8)
              (if i + 1 < N then GPIO_OUT_0 else GPIO_IN_0)) ++
          [Sym.STOP])) ∧
    (N = 1 → bus_wire s (I2C_Read slave slave_addr data N s).2 =
      Sym.START :: (tx_frame (addr_byte slave_addr 1) false ++
        (rx_frame (samples slave (s.reads + 1) 8) GPIO_IN_0 ++ [Sym.STOP]))) ∧
    (N = 0 → bus_wire s (I2C_Read slave slave_addr data N s).2 =
      Sym.START :: (tx_frame (addr_byte slave_addr 1) false ++ [Sym.STOP])) := by
  have hw : bus_wire s (I2C_Read slave slave_addr data N s).2 =
      Sym.START :: (tx_frame (addr_byte slave_addr 1) false ++
        ((List.range N).flatMap (fun i =>
            rx_frame (samples slave (s.reads + 1 + 8 * i) 8)
              (if i + 1 < N then GPIO_OUT_0 else GPIO_IN_0)) ++
          [Sym.STOP])) := by
    rw [bus_wire_read_ack _ _ _ _ _ hidle hack, rx_frames_range]
    simp only [Nat.zero_add]
  refine ⟨by rw [I2C_Read_status, hack]; rfl, hw, ?_, ?_⟩
  · intro h1
    subst h1
    rw [hw]
    simp [List.range_succ]
  · intro h0
    subst h0
    rw [hw]
    simp

/-- Witness for C6: a two-byte read of 0xFE, 0x01 is ACKed after the first byte
and NACKed after the second. -/
theorem read_ack_discipline_witness :
    (idle demo_machine ∧ demo_replies demo_machine.reads = false) ∧
    bus_wire demo_machine (I2C_Read demo_replies 0x55 200 2 demo_machine).2 =
      Sym.START :: (tx_frame (addr_byte 0x55 1) false ++
        ((List.range 2).flatMap (fun i =>
            rx_frame (samples demo_replies (demo_machine.reads + 1 + 8 * i) 8)
              (if i + 1 < 2 then GPIO_OUT_0 else GPIO_IN_0)) ++
          [Sym.STOP])) :=
  ⟨⟨by decide, rfl⟩,
   (read_ack_discipline demo_replies 0x55 200 2 demo_machine (by decide) rfl).2.1⟩

theorem edges_append (sda scl : DioMode) (a b : List Event) :
    edges sda scl (a ++ b) =
      edges sda scl a ++
        edges (pads_after (sda, scl) a).1 (pads_after (sda, scl) a).2 b := by
  induction a generalizing sda scl with
  | nil => rfl
  | cons e a ih =>
    cases e with
    | dioConfig pin mode =>
      simp only [List.cons_append, edges, pads_after]
      by_cases h1 : pin = SDA_PIN
      · have h2 : pin ≠ SCL_PIN := by rw [h1]; decide
        by_cases h3 : mode = sda
        · simp [h1, h3, ih]
        · simp [h1, h3, ih]
      · by_cases h2 : pin = SCL_PIN
        · have hne : SCL_PIN ≠ SDA_PIN := by decide
          by_cases h3 : mode = scl
          · simp [h2, hne, h3, ih]
          · simp [h2, hne, h3, ih]
        · simp [h1, h2, ih]
    | gpioSetLow pin => simp [edges, pads_after, ih]
    | spin n => simp [edges, pads_after, ih]
    | gpioSetHigh pin => simp [edges, pads_after, ih]
    | watchdogRefresh => simp [edges, pads_after, ih]
    | dioData pin level =>
      simp only [List.cons_append, edges, pads_after]
      by_cases h1 : pin = SDA_PIN
      · simp [h1, ih]
      · simp [h1, ih]

theorem pads_after_append (p : DioMode × DioMode) (a b : List Event) :
    pads_after p (a ++ b) = pads_after (pads_after p a) b := by
  induction a generalizing p with
  | nil => rfl
  | cons e a ih => cases e <;> simp [pads_after, ih]

theorem quiet_append (p : DioMode × DioMode) (a b : List Event)
    (ha : quiet p a) (hb : quiet (pads_after p a) b) : quiet p (a ++ b) := by
  intro e he
  rw [edges_append] at he
  rcases List.mem_append.1 he with h | h
  · exact ha e h
  · exact hb e h

theorem quiet_nil (p : DioMode × DioMode) : quiet p [] := by
  intro e he
  cases he

theorem steps_append (p q r : DioMode × DioMode) (a b : List Event)
    (ha : steps p a q) (hb : steps q b r) : steps p (a ++ b) r := by
  refine ⟨quiet_append p a b ha.1 (by rw [ha.2]; exact hb.1), ?_⟩
  rw [pads_after_append, ha.2, hb.2]

theorem steps_bit (p : DioMode × DioMode) (d : DioMode) :
    steps p (ev_bit d) (d, GPIO_IN_0) := by
  obtain ⟨sda, scl⟩ := p
  cases sda <;> cases scl <;> cases d <;>
    simp [steps, quiet, pads_after, edges, ev_bit, ev_sda, ev_scl, ev_delay, SDA_PIN, SCL_PIN,
      Edge.isCondition]

theorem steps_ack (p : DioMode × DioMode) (level : Bool) :
    steps p (ev_ack level) (GPIO_IN_0, GPIO_OUT_0) := by
  obtain ⟨sda, scl⟩ := p
  cases sda <;> cases scl <;>
    simp [steps, quiet, pads_after, edges, ev_ack, ev_read, ev_sda, ev_scl, ev_delay, SDA_PIN,
      SCL_PIN, Edge.isCondition]

theorem steps_bits_ack (ds : List DioMode) (p : DioMode × DioMode) (level : Bool) :
    steps p (ds.flatMap ev_bit ++ ev_ack level) (GPIO_IN_0, GPIO_OUT_0) := by
  induction ds generalizing p with
  | nil => exact steps_ack p level
  | cons d ds ih =>
    rw [List.flatMap_cons, List.append_assoc]
    exact steps_append _ _ _ _ _ (steps_bit p d) (ih _)

theorem steps_write_byte (p : DioMode × DioMode) (byte : Nat) (level : Bool) :
    steps p (ev_write_byte byte level) (GPIO_IN_0, GPIO_OUT_0) :=
  steps_bits_ack _ p level

theorem steps_tx (log : List (Nat × Bool)) :
    steps (GPIO_IN_0, GPIO_OUT_0) (ev_tx log) (GPIO_IN_0, GPIO_OUT_0) := by
  induction log with
  | nil => exact ⟨quiet_nil _, rfl⟩
  | cons x log ih =>
    rw [ev_tx_cons]
    exact steps_append _ _ _ _ _ (steps_write_byte _ _ _) ih

theorem steps_tx_cons (p : DioMode × DioMode) (x : Nat × Bool) (log : List (Nat × Bool)) :
    steps p (ev_tx (x :: log)) (GPIO_IN_0, GPIO_OUT_0) := by
  rw [ev_tx_cons]
  exact steps_append _ _ _ _ _ (steps_write_byte _ _ _) (steps_tx log)

theorem steps_rbit (scl : DioMode) (level : Bool) :
    steps (GPIO_IN_0, scl) (ev_rbit level) (GPIO_IN_0, GPIO_IN_0) := by
  cases scl <;>
    simp [steps, quiet, pads_after, edges, ev_rbit, ev_read, ev_sda, ev_scl, ev_delay, SDA_PIN,
      SCL_PIN, Edge.isCondition]

theorem steps_reply (scl reply : DioMode) :
    steps (GPIO_IN_0, scl) (ev_reply reply) (GPIO_IN_0, GPIO_OUT_0) := by
  cases scl <;> cases reply <;>
    simp [steps, quiet, pads_after, edges, ev_reply, ev_sda, ev_scl, ev_delay, SDA_PIN,
      SCL_PIN, Edge.isCondition]

theorem steps_rbits_reply (ls : List Bool) (scl reply : DioMode) :
    steps (GPIO_IN_0, scl) (ls.flatMap ev_rbit ++ ev_reply reply) (GPIO_IN_0, GPIO_OUT_0) := by
  induction ls generalizing scl with
  | nil => exact steps_reply scl reply
  | cons l ls ih =>
    rw [List.flatMap_cons, List.append_assoc]
    exact steps_append _ _ _ _ _ (steps_rbit scl l) (ih _)

theorem steps_sda_release (sda : DioMode) :
    steps (sda, GPIO_OUT_0) (ev_sda GPIO_IN_0) (GPIO_IN_0, GPIO_OUT_0) := by
  cases sda <;>
    simp [steps, quiet, pads_after, edges, ev_sda, SDA_PIN, SCL_PIN, Edge.isCondition]

theorem steps_read_byte (sda : DioMode) (ls : List Bool) (reply : DioMode) :
    steps (sda, GPIO_OUT_0) (ev_read_byte ls reply) (GPIO_IN_0, GPIO_OUT_0) := by
  rw [ev_read_byte_eq]
  exact steps_append _ _ _ _ _ (steps_sda_release sda) (steps_rbits_reply ls _ reply)

theorem steps_rx (slave : Slave) (length n i r : Nat) :
    steps (GPIO_IN_0, GPIO_OUT_0) (ev_rx slave length n i r) (GPIO_IN_0, GPIO_OUT_0) := by
  induction n generalizing i r with
  | zero => exact ⟨quiet_nil _, rfl⟩
  | succ n ih =>
    rw [ev_rx]
    exact steps_append _ _ _ _ _ (steps_read_byte _ _ _) (ih _ _)

theorem framed_of_mid (mid : List Edge) (h : ∀ e ∈ mid, e.isCondition = false) :
    framed (Edge.sdaFall GPIO_IN_0 :: (mid ++ [Edge.sdaRise GPIO_IN_0])) := by
  refine ⟨rfl, ?_, ?_⟩
  · rw [← List.cons_append, List.getLast?_append]
    rfl
  · have hf : mid.filter Edge.isCondition = [] := by
      rw [List.filter_eq_nil_iff]
      intro e he
      rw [h e he]
      simp
    simp [List.filter_cons, List.filter_append, hf, Edge.isCondition]

theorem edges_transaction (body : List Event)
    (hb : steps (GPIO_OUT_0, GPIO_OUT_0) body (GPIO_IN_0, GPIO_OUT_0)) :
    framed (edges GPIO_IN_0 GPIO_IN_0 (ev_start ++ (body ++ ev_stop))) := by
  have h1 : edges GPIO_IN_0 GPIO_IN_0 ev_start =
      [Edge.sdaFall GPIO_IN_0, Edge.sclFall GPIO_OUT_0] := by
    simp [edges, ev_start, ev_sda, ev_scl, ev_delay, SDA_PIN, SCL_PIN]
  have h2 : pads_after (GPIO_IN_0, GPIO_IN_0) ev_start = (GPIO_OUT_0, GPIO_OUT_0) := by
    simp [pads_after, ev_start, ev_sda, ev_scl, ev_delay, SDA_PIN, SCL_PIN]
  have h3 : edges GPIO_IN_0 GPIO_OUT_0 ev_stop =
      [Edge.sdaFall GPIO_OUT_0, Edge.sclRise GPIO_OUT_0, Edge.sdaRise GPIO_IN_0] := by
    simp [edges, ev_stop, ev_sda, ev_scl, ev_delay, SDA_PIN, SCL_PIN]
  rw [edges_append, h1, h2, edges_append, hb.2, h3]
  have e : [Edge.sdaFall GPIO_IN_0, Edge.sclFall GPIO_OUT_0] ++
      (edges GPIO_OUT_0 GPIO_OUT_0 body ++
        [Edge.sdaFall GPIO_OUT_0, Edge.sclRise GPIO_OUT_0, Edge.sdaRise GPIO_IN_0]) =
      Edge.sdaFall GPIO_IN_0 ::
        ((Edge.sclFall GPIO_OUT_0 :: (edges GPIO_OUT_0 GPIO_OUT_0 body ++
          [Edge.sdaFall GPIO_OUT_0, Edge.sclRise GPIO_OUT_0])) ++
          [Edge.sdaRise GPIO_IN_0]) := by
    simp
  rw [e]
  apply framed_of_mid
  intro x hx
  rcases List.mem_cons.1 hx with h | h
  · rw [h]; rfl
  · rcases List.mem_append.1 h with h | h
    · exact hb.1 x h
    · simp at h
      rcases h with h | h <;> (rw [h]; rfl)

theorem decode_count_start (p : Option (DioMode × Option Bool)) (es : List Edge) :
    (decode p es).count Sym.START = es.count (Edge.sdaFall GPIO_IN_0) := by
  induction es generalizing p with
  | nil => cases p <;> rfl
  | cons e es ih =>
    cases e with
    | sdaFall scl =>
      cases scl <;> simp [decode, ih, List.count_cons]
    | sdaRise scl =>
      cases scl <;> simp [decode, ih, List.count_cons]
    | sclFall sda =>
      rcases p with _ | ⟨d, smp⟩ <;> simp [decode, ih, List.count_cons]
    | sclRise sda => simp [decode, ih, List.count_cons]
    | sample level =>
      rcases p with _ | ⟨d, smp⟩ <;> simp [decode, ih, List.count_cons]

theorem decode_count_stop (p : Option (DioMode × Option Bool)) (es : List Edge) :
    (decode p es).count Sym.STOP = es.count (Edge.sdaRise GPIO_IN_0) := by
  induction es generalizing p with
  | nil => cases p <;> rfl
  | cons e es ih =>
    cases e with
    | sdaFall scl =>
      cases scl <;> simp [decode, ih, List.count_cons]
    | sdaRise scl =>
      cases scl <;> simp [decode, ih, List.count_cons]
    | sclFall sda =>
      rcases p with _ | ⟨d, smp⟩ <;> simp [decode, ih, List.count_cons]
    | sclRise sda => simp [decode, ih, List.count_cons]
    | sample level =>
      rcases p with _ | ⟨d, smp⟩ <;> simp [decode, ih, List.count_cons]

theorem framed_counts (es : List Edge) (h : framed es) :
    es.count (Edge.sdaFall GPIO_IN_0) = 1 ∧ es.count (Edge.sdaRise GPIO_IN_0) = 1 := by
  have h1 : es.count (Edge.sdaFall GPIO_IN_0) =
      (es.filter Edge.isCondition).count (Edge.sdaFall GPIO_IN_0) :=
    (List.count_filter (by rfl)).symm
  have h2 : es.count (Edge.sdaRise GPIO_IN_0) =
      (es.filter Edge.isCondition).count (Edge.sdaRise GPIO_IN_0) :=
    (List.count_filter (by rfl)).symm
  rw [h1, h2, h.2.2]
  exact ⟨by decide, by decide⟩

theorem edges_write (slave : Slave) (slave_addr data length : Nat) (s : Machine)
    (hidle : idle s) :
    framed (edges s.sda s.scl (since s (I2C_Write slave slave_addr data length s).2)) := by
  rw [I2C_Write_closed]
  simp only []
  rw [since_replay, hidle.1, hidle.2]
  apply edges_transaction
  rw [tx_log]
  exact steps_tx_cons _ _ _

theorem edges_read (slave : Slave) (slave_addr data length : Nat) (s : Machine)
    (hidle : idle s) :
    framed (edges s.sda s.scl (since s (I2C_Read slave slave_addr data length s).2)) := by
  rw [I2C_Read_eq]
  cases hs : slave s.reads
  · simp only [Bool.false_eq_true, if_false]
    rw [since_with_mem, since_replay, hidle.1, hidle.2, List.append_assoc, List.append_assoc,
      ← List.append_assoc (ev_write_byte _ _)]
    apply edges_transaction
    exact steps_append _ _ _ _ _ (steps_write_byte _ _ _) (steps_rx _ _ _ _ _)
  · simp only [if_true]
    rw [since_replay, hidle.1, hidle.2, List.append_assoc]
    apply edges_transaction
    exact steps_write_byte _ _ _

theorem bus_wire_counts (s t : Machine)
    (h : framed (edges s.sda s.scl (since s t))) :
    (bus_wire s t).count Sym.START = 1 ∧ (bus_wire s t).count Sym.STOP = 1 := by
  unfold bus_wire wire
  rw [decode_count_start, decode_count_stop]
  exact framed_counts _ h

/-- C7: in an `I2C_Write` or `I2C_Read` call started with both lines released,
whatever the arguments and the slave, the first line change is SDA falling
with SCL released (START), the last line change is SDA rising with SCL
released (STOP), and these two are the only changes of SDA made while SCL is
released: every other SDA change is made with SCL held low.  The decoded bus
trace therefore has exactly one START and exactly one STOP. -/
theorem one_start_one_stop (slave : Slave) (slave_addr data length : Nat) (s : Machine)
    (hidle : idle s) :
    (edges s.sda s.scl (since s (I2C_Write slave slave_addr data length s).2)).head? =
      some (Edge.sdaFall GPIO_IN_0) ∧
    (edges s.sda s.scl (since s (I2C_Write slave slave_addr data length s).2)).getLast? =
      some (Edge.sdaRise GPIO_IN_0) ∧
    (edges s.sda s.scl (since s (I2C_Write slave slave_addr data length s).2)).filter
      Edge.isCondition = [Edge.sdaFall GPIO_IN_0, Edge.sdaRise GPIO_IN_0] ∧
    (edges s.sda s.scl (since s (I2C_Read slave slave_addr data length s).2)).head? =
      some (Edge.sdaFall GPIO_IN_0) ∧
    (edges s.sda s.scl (since s (I2C_Read slave slave_addr data length s).2)).getLast? =
      some (Edge.sdaRise GPIO_IN_0) ∧
    (edges s.sda s.scl (since s (I2C_Read slave slave_addr data length s).2)).filter
      Edge.isCondition = [Edge.sdaFall GPIO_IN_0, Edge.sdaRise GPIO_IN_0] ∧
    (bus_wire s (I2C_Write slave slave_addr data length s).2).count Sym.START = 1 ∧
    (bus_wire s (I2C_Write slave slave_addr data length s).2).count Sym.STOP = 1 ∧
    (bus_wire s (I2C_Read slave slave_addr data length s).2).count Sym.START = 1 ∧
    (bus_wire s (I2C_Read slave slave_addr data length s).2).count Sym.STOP = 1 := by
  have hw := edges_write slave slave_addr data length s hidle
  have hr := edges_read slave slave_addr data length s hidle
  have cw := bus_wire_counts _ _ hw
  have cr := bus_wire_counts _ _ hr
  exact ⟨hw.1, hw.2.1, hw.2.2, hr.1, hr.2.1, hr.2.2, cw.1, cw.2, cr.1, cr.2⟩

/-- Witness for C7: a two-byte write and a two-byte read at address 0x55 from
the idle bus. -/
theorem one_start_one_stop_witness :
    idle demo_machine ∧
    (edges demo_machine.sda demo_machine.scl
      (since demo_machine (I2C_Write demo_replies 0x55 100 2 demo_machine).2)).filter
      Edge.isCondition = [Edge.sdaFall GPIO_IN_0, Edge.sdaRise GPIO_IN_0] ∧
    (edges demo_machine.sda demo_machine.scl
      (since demo_machine (I2C_Read demo_replies 0x55 100 2 demo_machine).2)).filter
      Edge.isCondition = [Edge.sdaFall GPIO_IN_0, Edge.sdaRise GPIO_IN_0] :=
  ⟨by decide,
   (one_start_one_stop demo_replies 0x55 100 2 demo_machine (by decide)).2.2.1,
   (one_start_one_stop demo_replies 0x55 100 2 demo_machine (by decide)).2.2.2.2.2.1⟩

theorem idle_replay_stop (es : List Event) (s : Machine) :
    idle (replay (es ++ ev_stop) s) := by
  rw [replay_append]
  exact ⟨rfl, rfl⟩

theorem idle_with_mem (s : Machine) (m : Nat → Nat) (h : idle s) : idle (with_mem s m) := h

theorem idle_Write (slave : Slave) (slave_addr data length : Nat) (s : Machine) :
    idle (I2C_Write slave slave_addr data length s).2 := by
  rw [I2C_Write_closed]
  simp only []
  rw [← List.append_assoc]
  exact idle_replay_stop _ _

theorem idle_Read (slave : Slave) (slave_addr data length : Nat) (s : Machine) :
    idle (I2C_Read slave slave_addr data length s).2 := by
  rw [I2C_Read_eq]
  split
  · exact idle_replay_stop _ _
  · exact idle_with_mem _ _ (idle_replay_stop _ _)

theorem idle_busy_wait (n : Nat) (s : Machine) (h : idle s) : idle (busy_wait n s) := h

theorem idle_WriteRead (slave : Slave) (slave_addr tx_data tx_length rx_data rx_length : Nat)
    (s : Machine) :
    idle (I2C_WriteRead slave slave_addr tx_data tx_length rx_data rx_length s).2 := by
  rw [I2C_WriteRead_eq]
  split
  · exact idle_Read _ _ _ _ _
  · exact idle_Write _ _ _ _ _

/-- C8: after `I2C_Init` returns and after `I2C_Write`, `I2C_Read` and
`I2C_WriteRead` return, whatever the status, the arguments, the slave and the
state of the pads at entry, the master has SDA and SCL configured as inputs
(released). -/
theorem bus_idle_on_return (slave : Slave)
    (speed slave_addr data length tx_data tx_length rx_data rx_length : Nat) (s : Machine) :
    idle (I2C_Init speed s) ∧
    idle (I2C_Write slave slave_addr data length s).2 ∧
    idle (I2C_Read slave slave_addr data length s).2 ∧
    idle (I2C_WriteRead slave slave_addr tx_data tx_length rx_data rx_length s).2 :=
  ⟨⟨rfl, rfl⟩, idle_Write _ _ _ _ _, idle_Read _ _ _ _ _, idle_WriteRead _ _ _ _ _ _ _⟩

theorem I2C_WriteRead_refines (slave : Slave)
    (slave_addr tx_data tx_length rx_data rx_length : Nat) (s : Machine) :
    I2C_WriteRead slave slave_addr tx_data tx_length rx_data rx_length s =
      spec_write_then_read slave slave_addr tx_data tx_length rx_data rx_length s := by
  rw [I2C_WriteRead_eq]
  unfold spec_write_then_read
  rcases hw : I2C_Write slave slave_addr tx_data tx_length s with ⟨st, s1⟩
  cases st <;> simp

theorem with_mem_self (t : Machine) : with_mem t t.mem = t := rfl

theorem I2C_Read_replay (slave : Slave) (slave_addr data length : Nat) (s : Machine) :
    ∃ B m, (I2C_Read slave slave_addr data length s).2 = with_mem (replay B s) m := by
  cases hs : slave s.reads
  · refine ⟨ev_start ++ ev_write_byte (addr_byte slave_addr 1) false ++
        ev_rx slave length length 0 (s.reads + 1) ++ ev_stop,
      rx_mem slave data length 0 (s.reads + 1) s.mem, ?_⟩
    rw [I2C_Read_eq, hs]
    simp only [Bool.false_eq_true, if_false]
  · refine ⟨ev_start ++ ev_write_byte (addr_byte slave_addr 1) true ++ ev_stop,
      (replay (ev_start ++ ev_write_byte (addr_byte slave_addr 1) true ++ ev_stop) s).mem, ?_⟩
    rw [I2C_Read_address_nack _ _ _ _ _ hs, with_mem_self]

theorem wire_then (log : List (Nat × Bool)) (n : Nat) (B : List Event) :
    wire GPIO_IN_0 GPIO_IN_0 ((ev_start ++ (ev_tx log ++ ev_stop)) ++ (Event.spin n :: B)) =
      wire GPIO_IN_0 GPIO_IN_0 (ev_start ++ (ev_tx log ++ ev_stop)) ++
        wire GPIO_IN_0 GPIO_IN_0 B := by
  rw [wire_write, wire_eq_scan, wire_eq_scan, List.append_assoc, List.append_assoc,
    scan_start, scan_tx_any, scan_spin]
  simp

/-- C9: `I2C_WriteRead` is the specified composition: the write, and only when
it returned OK, the settling wait and the read.  When the write does not return
OK the result is that of the write alone: its status, its bus trace, memory
unchanged.  When it returns OK, the status and memory are those of the read
started from the state the write left, and the bus carries the complete write
transaction, ending in STOP, followed by the read transaction, beginning with
its own START: two STARTs and two STOPs. -/
theorem write_read_is_write_then_read (slave : Slave)
    (slave_addr tx_data tx_length rx_data rx_length : Nat) (s : Machine) (hidle : idle s) :
    I2C_WriteRead slave slave_addr tx_data tx_length rx_data rx_length s =
      spec_write_then_read slave slave_addr tx_data tx_length rx_data rx_length s ∧
    ((I2C_Write slave slave_addr tx_data tx_length s).1 ≠ I2C_STATUS_OK →
      I2C_WriteRead slave slave_addr tx_data tx_length rx_data rx_length s =
        I2C_Write slave slave_addr tx_data tx_length s ∧
      (I2C_WriteRead slave slave_addr tx_data tx_length rx_data rx_length s).2.mem = s.mem ∧
      (bus_wire s
        (I2C_WriteRead slave slave_addr tx_data tx_length rx_data rx_length s).2).count
          Sym.START = 1) ∧
    ((I2C_Write slave slave_addr tx_data tx_length s).1 = I2C_STATUS_OK →
      I2C_WriteRead slave slave_addr tx_data tx_length rx_data rx_length s =
        I2C_Read slave slave_addr rx_data rx_length
          (busy_wait 50000 (I2C_Write slave slave_addr tx_data tx_length s).2) ∧
      bus_wire s (I2C_WriteRead slave slave_addr tx_data tx_length rx_data rx_length s).2 =
        bus_wire s (I2C_Write slave slave_addr tx_data tx_length s).2 ++
          bus_wire (busy_wait 50000 (I2C_Write slave slave_addr tx_data tx_length s).2)
            (I2C_Read slave slave_addr rx_data rx_length
              (busy_wait 50000 (I2C_Write slave slave_addr tx_data tx_length s).2)).2 ∧
      (bus_wire s (I2C_Write slave slave_addr tx_data tx_length s).2).getLast? =
        some Sym.STOP ∧
      (bus_wire (busy_wait 50000 (I2C_Write slave slave_addr tx_data tx_length s).2)
        (I2C_Read slave slave_addr rx_data rx_length
          (busy_wait 50000 (I2C_Write slave slave_addr tx_data tx_length s).2)).2).head? =
        some Sym.START ∧
      (bus_wire s
        (I2C_WriteRead slave slave_addr tx_data tx_length rx_data rx_length s).2).count
          Sym.START = 2 ∧
      (bus_wire s
        (I2C_WriteRead slave slave_addr tx_data tx_length rx_data rx_length s).2).count
          Sym.STOP = 2) := by
  refine ⟨I2C_WriteRead_refines _ _ _ _ _ _ _, ?_, ?_⟩
  · intro hne
    have hwr : I2C_WriteRead slave slave_addr tx_data tx_length rx_data rx_length s =
        I2C_Write slave slave_addr tx_data tx_length s := by
      rw [I2C_WriteRead_eq, if_neg hne]
    rw [hwr]
    exact ⟨rfl, I2C_Write_mem _ _ _ _ _,
      (bus_wire_counts _ _ (edges_write slave slave_addr tx_data tx_length s hidle)).1⟩
  · intro hok
    have hwr : I2C_WriteRead slave slave_addr tx_data tx_length rx_data rx_length s =
        I2C_Read slave slave_addr rx_data rx_length
          (busy_wait 50000 (I2C_Write slave slave_addr tx_data tx_length s).2) := by
      rw [I2C_WriteRead_eq, if_pos hok]
    have hidle2 : idle (busy_wait 50000 (I2C_Write slave slave_addr tx_data tx_length s).2) :=
      idle_busy_wait _ _ (idle_Write _ _ _ _ _)
    have hcw := bus_wire_counts _ _ (edges_write slave slave_addr tx_data tx_length s hidle)
    have hcr := bus_wire_counts _ _ (edges_read slave slave_addr rx_data rx_length _ hidle2)
    have hlast : (bus_wire s (I2C_Write slave slave_addr tx_data tx_length s).2).getLast? =
        some Sym.STOP := by
      rw [bus_wire_write _ _ _ _ _ hidle, ← List.cons_append, List.getLast?_append]
      rfl
    have hhead : (bus_wire (busy_wait 50000 (I2C_Write slave slave_addr tx_data tx_length s).2)
        (I2C_Read slave slave_addr rx_data rx_length
          (busy_wait 50000 (I2C_Write slave slave_addr tx_data tx_length s).2)).2).head? =
        some Sym.START := by
      obtain ⟨l, rest, h⟩ := bus_wire_read_head slave slave_addr rx_data rx_length _ hidle2
      rw [h]
      rfl
    have hcat : bus_wire s
        (I2C_Read slave slave_addr rx_data rx_length
          (busy_wait 50000 (I2C_Write slave slave_addr tx_data tx_length s).2)).2 =
        bus_wire s (I2C_Write slave slave_addr tx_data tx_length s).2 ++
          bus_wire (busy_wait 50000 (I2C_Write slave slave_addr tx_data tx_length s).2)
            (I2C_Read slave slave_addr rx_data rx_length
              (busy_wait 50000 (I2C_Write slave slave_addr tx_data tx_length s).2)).2 := by
      obtain ⟨B, m, hB⟩ := I2C_Read_replay slave slave_addr rx_data rx_length
        (busy_wait 50000 (I2C_Write slave slave_addr tx_data tx_length s).2)
      rw [hB]
      rw [bus_wire, bus_wire, bus_wire, since_with_mem, since_with_mem, since_replay,
        hidle2.1, hidle2.2, hidle.1, hidle.2]
      rw [I2C_Write_closed]
      simp only []
      have hbw : ∀ t : Machine, busy_wait 50000 t = replay [Event.spin 50000] t := fun _ => rfl
      rw [hbw, ← replay_append, ← replay_append, since_replay, since_replay, List.append_assoc]
      have h := wire_then
        (tx_log slave (tx_byte slave_addr tx_data s.mem) (tx_length + 1) 0 s.reads) 50000 B
      rw [List.append_assoc] at h
      exact h
    rw [hwr]
    refine ⟨rfl, hcat, hlast, hhead, ?_, ?_⟩
    · rw [hcat, List.count_append, hcw.1, hcr.1]
    · rw [hcat, List.count_append, hcw.2, hcr.2]

/-- Witness for C9: writing 0x2A to address 0x55 and reading one byte back gives
OK and two complete transactions on the bus. -/
theorem write_read_is_write_then_read_witness :
    idle demo_machine ∧
    (I2C_Write demo_echo 0x55 100 1 demo_machine).1 = I2C_STATUS_OK ∧
    (bus_wire demo_machine
      (I2C_WriteRead demo_echo 0x55 100 1 200 1 demo_machine).2).count Sym.START = 2 ∧
    (bus_wire demo_machine
      (I2C_WriteRead demo_echo 0x55 100 1 200 1 demo_machine).2).count Sym.STOP = 2 :=
  ⟨by decide, by decide,
   ((write_read_is_write_then_read demo_echo 0x55 100 1 200 1 demo_machine
      (by decide)).2.2 (by decide)).2.2.2.2.1,
   ((write_read_is_write_then_read demo_echo 0x55 100 1 200 1 demo_machine
      (by decide)).2.2 (by decide)).2.2.2.2.2⟩

/-- Counterexample to C10: against a slave that never pulls SDA low, reading one
byte from address 0x55 does not return OK. -/
theorem I2C_Read_not_always_ok :
    (I2C_Read demo_absent 0x55 200 1 demo_machine).1 ≠ I2C_STATUS_OK := by
  decide

/-- C10, amended: the status of `I2C_Read` depends on the acknowledge sample of
the address byte and on nothing else.  It is OK exactly when that sample is
low, whatever the slave drives or fails to drive during the data bytes, and
NACK exactly when that sample is high. -/
theorem I2C_Read_ok_iff_address_acked (slave : Slave) (slave_addr data length : Nat)
    (s : Machine) :
    ((I2C_Read slave slave_addr data length s).1 = I2C_STATUS_OK ↔ slave s.reads = false) ∧
    ((I2C_Read slave slave_addr data length s).1 = I2C_STATUS_NACK ↔ slave s.reads = true) := by
  rw [I2C_Read_status]
  cases slave s.reads <;> simp

theorem main_iteration_counter (slave : Slave) (a : App) :
    (main_iteration slave a).counter = (a.counter + 1) % 256 := by
  simp only [main_iteration]

theorem main_iteration_tallies (slave : Slave) (a : App) :
    (main_iteration slave a).success_count =
      (if (tx_phase slave a).1 = I2C_STATUS_OK ∧ (rx_phase slave a).1 = I2C_STATUS_OK ∧
          (rx_phase slave a).2.mem response_slot = (a.counter + 1) % 256
       then (a.success_count + 1) % 256 else a.success_count) ∧
    (main_iteration slave a).fail_count =
      (if (tx_phase slave a).1 = I2C_STATUS_OK ∧ (rx_phase slave a).1 = I2C_STATUS_OK ∧
          (rx_phase slave a).2.mem response_slot = (a.counter + 1) % 256
       then a.fail_count else (a.fail_count + 1) % 256) := by
  simp only [main_iteration]
  split_ifs <;> simp_all

/-- C11: in one iteration of the main loop started with counter `C`, exactly one
of the two tallies is incremented by one modulo 256 and the other is unchanged:
`success_count` when the write returned OK, the read returned OK and the byte
read equals `(C + 1) mod 256`, and `fail_count` in every other case. -/
theorem one_tally_per_iteration (slave : Slave) (a : App) :
    ((main_iteration slave a).success_count =
      if (tx_phase slave a).1 = I2C_STATUS_OK ∧ (rx_phase slave a).1 = I2C_STATUS_OK ∧
          (rx_phase slave a).2.mem response_slot = (a.counter + 1) % 256
      then (a.success_count + 1) % 256 else a.success_count) ∧
    ((main_iteration slave a).fail_count =
      if (tx_phase slave a).1 = I2C_STATUS_OK ∧ (rx_phase slave a).1 = I2C_STATUS_OK ∧
          (rx_phase slave a).2.mem response_slot = (a.counter + 1) % 256
      then a.fail_count else (a.fail_count + 1) % 256) ∧
    (((main_iteration slave a).success_count = (a.success_count + 1) % 256 ∧
        (main_iteration slave a).fail_count = a.fail_count) ∨
      ((main_iteration slave a).success_count = a.success_count ∧
        (main_iteration slave a).fail_count = (a.fail_count + 1) % 256)) := by
  obtain ⟨hs, hf⟩ := main_iteration_tallies slave a
  refine ⟨hs, hf, ?_⟩
  rw [hs, hf]
  split_ifs
  · exact Or.inl ⟨rfl, rfl⟩
  · exact Or.inr ⟨rfl, rfl⟩

/-- C15: the `speed` argument of `I2C_Init` is ignored.  For any two speeds
`I2C_Init` performs the same platform actions (pad accesses and busy-waits) and
leaves the same state, and every later `I2C_Write`, `I2C_Read` or
`I2C_WriteRead` call returns the same status, performs the same actions, with
the same busy-wait counts, and leaves the same state whichever speed was
passed. -/
theorem init_speed_ignored (speed1 speed2 : Nat) (slave : Slave)
    (slave_addr data length rx_data rx_length : Nat) (s : Machine) :
    I2C_Init speed1 s = I2C_Init speed2 s ∧
    since s (I2C_Init speed1 s) = since s (I2C_Init speed2 s) ∧
    since s (I2C_Init speed1 s) =
      [Event.dioConfig SDA_PIN GPIO_IN_0, Event.dioConfig SCL_PIN GPIO_IN_0,
       Event.gpioSetLow SDA_PIN, Event.gpioSetLow SCL_PIN,
       Event.dioConfig SDA_PIN GPIO_IN_0, Event.dioConfig SCL_PIN GPIO_IN_0,
       Event.spin 50000] ∧
    I2C_Write slave slave_addr data length (I2C_Init speed1 s) =
      I2C_Write slave slave_addr data length (I2C_Init speed2 s) ∧
    I2C_Read slave slave_addr data length (I2C_Init speed1 s) =
      I2C_Read slave slave_addr data length (I2C_Init speed2 s) ∧
    I2C_WriteRead slave slave_addr data length rx_data rx_length (I2C_Init speed1 s) =
      I2C_WriteRead slave slave_addr data length rx_data rx_length (I2C_Init speed2 s) := by
  refine ⟨rfl, rfl, ?_, rfl, rfl, rfl⟩
  simp [since, I2C_Init, Sys_DIO_Config, Sys_GPIO_Set_Low, sda_release, scl_release, busy_wait]

/-- Counterexample to C17: the actions of `i2c_write_byte(0x00)` do not begin
with eight repetitions of the specified five-step sequence; the third action is
already a delay where the specification has the SDA write. -/
theorem write_bit_sequence_not_as_specified :
    ¬ ∃ rest, since demo_machine (i2c_write_byte demo_all_low 0 demo_machine).2 =
      ((msb_bits 0).map drive).flatMap spec_bit_actions ++ rest := by
  rintro ⟨rest, h⟩
  have h2 := congrArg (fun l => l[2]?) h
  revert h2
  rw [i2c_write_byte_eq, since_replay]
  simp [ev_write_byte, msb_bits, drive, ev_bit, spec_bit_actions, ev_scl, ev_sda, ev_delay]

/-- C17, amended: for every byte, `i2c_write_byte` performs for each of the
eight data bits, from bit 7 to bit 0, the actions: SCL low, one delay, SDA to
the bit value (released for 1, driven low for 0), one delay, SCL released, one
delay; that is three delays per bit, one of them between pulling SCL low and
setting SDA.  The acknowledge slot follows. -/
theorem write_bit_sequence (slave : Slave) (byte : Nat) (s : Machine) :
    since s (i2c_write_byte slave byte s).2 =
      (msb_bits byte).flatMap (fun b =>
        [Event.dioConfig SCL_PIN GPIO_OUT_0, Event.gpioSetLow SCL_PIN,
         Event.spin I2C_DELAY] ++
        (if b then [Event.dioConfig SDA_PIN GPIO_IN_0]
         else [Event.dioConfig SDA_PIN GPIO_OUT_0, Event.gpioSetLow SDA_PIN]) ++
        [Event.spin I2C_DELAY, Event.dioConfig SCL_PIN GPIO_IN_0, Event.spin I2C_DELAY]) ++
      ev_ack (slave s.reads) := by
  rw [i2c_write_byte_eq, since_replay, ev_write_byte, List.flatMap_map]
  congr 1
  apply List.flatMap_congr
  intro b _
  cases b <;> rfl

theorem addr_byte_eq (slave_addr rw : Nat) (hrw : rw < 2) :
    addr_byte slave_addr rw = ((2 * slave_addr) % 256) ||| rw := by
  unfold addr_byte
  apply Nat.eq_of_testBit_eq
  intro i
  have h256 : (256 : Nat) = 2 ^ 8 := by norm_num
  rw [h256, Nat.testBit_mod_two_pow, Nat.testBit_or, Nat.testBit_or, Nat.testBit_mod_two_pow,
    Nat.shiftLeft_eq, Nat.pow_one, Nat.mul_comm]
  by_cases hi : i < 8
  · simp [hi]
  · have hlt : rw < 2 ^ i := lt_of_lt_of_le hrw
      (le_trans (by norm_num : 2 ≤ 2 ^ 8) (Nat.pow_le_pow_right (by norm_num) (by omega)))
    simp [hi, Nat.testBit_lt_two_pow hlt]

theorem addr_byte_top_bit (a rw : Nat) (hrw : rw < 2) :
    addr_byte ((a + 0x80) % 256) rw = addr_byte a rw := by
  rw [addr_byte_eq _ _ hrw, addr_byte_eq _ _ hrw]
  congr 1
  omega

theorem take_frame (byte : Nat) (level : Bool) (rest : List Sym) :
    (Sym.START :: (tx_frame byte level ++ rest)).take 10 = Sym.START :: tx_frame byte level := by
  simp [tx_frame, msb_bits]

theorem bus_wire_write_take (slave : Slave) (slave_addr data length : Nat) (s : Machine)
    (hidle : idle s) :
    (bus_wire s (I2C_Write slave slave_addr data length s).2).take 10 =
      Sym.START :: tx_frame (addr_byte slave_addr 0) (slave s.reads) := by
  rw [bus_wire_write _ _ _ _ _ hidle]
  simp only [tx_log, tx_frames_cons, tx_byte, List.append_assoc]
  exact take_frame _ _ _

theorem bus_wire_read_take (slave : Slave) (slave_addr data length : Nat) (s : Machine)
    (hidle : idle s) :
    (bus_wire s (I2C_Read slave slave_addr data length s).2).take 10 =
      Sym.START :: tx_frame (addr_byte slave_addr 1) (slave s.reads) := by
  cases hs : slave s.reads
  · rw [bus_wire_read_ack _ _ _ _ _ hidle hs]
    exact take_frame _ _ _
  · rw [bus_wire_read_nack _ _ _ _ _ hidle hs]
    exact take_frame _ _ _

theorem first_byte_of_take (w : List Sym) (byte : Nat) (level : Bool)
    (h : w.take 10 = Sym.START :: tx_frame byte level) : first_byte w = byte % 256 := by
  have h1 : first_byte w = first_byte (w.take 10) := by
    have e : ((w.take 10).drop 1).take 8 = (w.drop 1).take 8 := by
      rw [List.drop_take, List.take_take]
      rfl
    rw [first_byte, first_byte, e]
  have h2 := first_byte_frame byte level []
  rw [List.append_nil] at h2
  rw [h1, h, h2]

theorem I2C_Write_top_bit (slave : Slave) (a data length : Nat) (t : Machine) :
    I2C_Write slave ((a + 0x80) % 256) data length t = I2C_Write slave a data length t := by
  simp only [I2C_Write, addr_byte_top_bit a 0 (by norm_num)]

theorem I2C_Read_top_bit (slave : Slave) (a data length : Nat) (t : Machine) :
    I2C_Read slave ((a + 0x80) % 256) data length t = I2C_Read slave a data length t := by
  simp only [I2C_Read, addr_byte_top_bit a 1 (by norm_num)]

theorem I2C_WriteRead_top_bit (slave : Slave) (a data length rx_data rx_length : Nat)
    (t : Machine) :
    I2C_WriteRead slave ((a + 0x80) % 256) data length rx_data rx_length t =
      I2C_WriteRead slave a data length rx_data rx_length t := by
  simp only [I2C_WriteRead, I2C_Write_top_bit, I2C_Read_top_bit]

/-- C19: the slave address is not validated.  For every `slave_addr` the bus
carries, right after START, the address byte `((2 * slave_addr) mod 256) | rw`
(`rw` is 0 for `I2C_Write` and 1 for `I2C_Read`) followed by the acknowledge
slot, so bit 7 of `slave_addr` is dropped: the calls with `slave_addr = a` and
`slave_addr = (a + 0x80) mod 256` put the same address byte and the same
symbols on the bus and give the same status and the same final state (same
actions, same memory) against the same slave. -/
theorem address_top_bit_dropped (slave : Slave) (a data length rx_data rx_length : Nat)
    (s : Machine) (hidle : idle s) :
    ((bus_wire s (I2C_Write slave a data length s).2).take 10 =
        Sym.START :: tx_frame (((2 * a) % 256) ||| 0) (slave s.reads) ∧
      first_byte (bus_wire s (I2C_Write slave a data length s).2) = ((2 * a) % 256) ||| 0) ∧
    ((bus_wire s (I2C_Read slave a data length s).2).take 10 =
        Sym.START :: tx_frame (((2 * a) % 256) ||| 1) (slave s.reads) ∧
      first_byte (bus_wire s (I2C_Read slave a data length s).2) = ((2 * a) % 256) ||| 1) ∧
    (first_byte (bus_wire s (I2C_Write slave ((a + 0x80) % 256) data length s).2) =
        ((2 * a) % 256) ||| 0 ∧
      first_byte (bus_wire s (I2C_Read slave ((a + 0x80) % 256) data length s).2) =
        ((2 * a) % 256) ||| 1) ∧
    (bus_wire s (I2C_Write slave ((a + 0x80) % 256) data length s).2 =
        bus_wire s (I2C_Write slave a data length s).2 ∧
      bus_wire s (I2C_Read slave ((a + 0x80) % 256) data length s).2 =
        bus_wire s (I2C_Read slave a data length s).2 ∧
      bus_wire s (I2C_WriteRead slave ((a + 0x80) % 256) data length rx_data rx_length s).2 =
        bus_wire s (I2C_WriteRead slave a data length rx_data rx_length s).2) ∧
    (∀ t, I2C_Write slave ((a + 0x80) % 256) data length t = I2C_Write slave a data length t) ∧
    (∀ t, I2C_Read slave ((a + 0x80) % 256) data length t = I2C_Read slave a data length t) ∧
    (∀ t, I2C_WriteRead slave ((a + 0x80) % 256) data length rx_data rx_length t =
      I2C_WriteRead slave a data length rx_data rx_length t) ∧
    addr_byte a 0 = ((2 * a) % 256) ||| 0 ∧
    addr_byte a 1 = ((2 * a) % 256) ||| 1 := by
  have e0 := addr_byte_eq a 0 (by norm_num)
  have e1 := addr_byte_eq a 1 (by norm_num)
  have hlt0 : addr_byte a 0 < 256 := Nat.mod_lt _ (by norm_num)
  have hlt1 : addr_byte a 1 < 256 := Nat.mod_lt _ (by norm_num)
  have tw := bus_wire_write_take slave a data length s hidle
  have tr := bus_wire_read_take slave a data length s hidle
  have fw : first_byte (bus_wire s (I2C_Write slave a data length s).2) = addr_byte a 0 := by
    rw [first_byte_of_take _ _ _ tw, Nat.mod_eq_of_lt hlt0]
  have fr : first_byte (bus_wire s (I2C_Read slave a data length s).2) = addr_byte a 1 := by
    rw [first_byte_of_take _ _ _ tr, Nat.mod_eq_of_lt hlt1]
  rw [e0] at tw fw
  rw [e1] at tr fr
  refine ⟨⟨tw, fw⟩, ⟨tr, fr⟩, ⟨?_, ?_⟩, ⟨?_, ?_, ?_⟩, I2C_Write_top_bit slave a data length,
    I2C_Read_top_bit slave a data length,
    I2C_WriteRead_top_bit slave a data length rx_data rx_length, e0, e1⟩
  · rw [I2C_Write_top_bit]; exact fw
  · rw [I2C_Read_top_bit]; exact fr
  · rw [I2C_Write_top_bit]
  · rw [I2C_Read_top_bit]
  · rw [I2C_WriteRead_top_bit]

/-- Witness for C19: the out-of-range address 0xD5 (0x55 with bit 7 set) puts
0xAA on the bus for a write and 0xAB for a read, as 0x55 does. -/
theorem address_top_bit_dropped_witness :
    (idle demo_machine ∧ (((2 * 0xD5) % 256) ||| 0 : Nat) = 0xAA ∧
      (((2 * 0xD5) % 256) ||| 1 : Nat) = 0xAB) ∧
    first_byte (bus_wire demo_machine (I2C_Write demo_all_low 0xD5 100 1 demo_machine).2) =
      ((2 * 0xD5) % 256) ||| 0 ∧
    first_byte (bus_wire demo_machine (I2C_Read demo_all_low 0xD5 100 1 demo_machine).2) =
      ((2 * 0xD5) % 256) ||| 1 :=
  ⟨⟨by decide, by decide, by decide⟩,
   (address_top_bit_dropped demo_all_low 0xD5 100 1 200 1 demo_machine (by decide)).1.2,
   (address_top_bit_dropped demo_all_low 0xD5 100 1 200 1 demo_machine (by decide)).2.1.2⟩

/-- C20: reception inverts transmission.  If the eight samples taken by
`i2c_read_byte` are, in order, the levels of SDA during the eight data pulses
of `i2c_write_byte(B)`, then `i2c_read_byte` returns `B`, whatever `send_ack`
is. -/
theorem read_byte_inverts_write_byte (slave sender : Slave) (B send_ack : Nat)
    (s t : Machine) (hB : B < 256)
    (h : samples slave s.reads 8 =
      ((bus_wire t (i2c_write_byte sender B t).2).take 8).map wire_bit) :
    (i2c_read_byte slave send_ack s).1 = B := by
  rw [bus_wire_write_byte] at h
  have h8 : ((tx_frame B (sender t.reads)).take 8).map wire_bit = msb_bits B := by
    simp [tx_frame, msb_bits, wire_bit_drive]
  rw [h8] at h
  rw [i2c_read_byte_eq]
  simp only []
  rw [h, of_bits_msb_bits, Nat.mod_eq_of_lt hB]

/-- Witness for C20: receiving the levels of a transmitted 0xFE gives 0xFE. -/
theorem read_byte_inverts_write_byte_witness :
    ((0xFE : Nat) < 256 ∧
      samples demo_replies demo_reading.reads 8 =
        ((bus_wire demo_machine (i2c_write_byte demo_all_low 0xFE demo_machine).2).take 8).map
          wire_bit) ∧
    (i2c_read_byte demo_replies 1 demo_reading).1 = 0xFE :=
  ⟨⟨by decide, by decide⟩,
   read_byte_inverts_write_byte demo_replies demo_all_low 0xFE 1 demo_reading demo_machine
     (by decide) (by decide)⟩

theorem pulses_nil : pulses [] = 0 := rfl

theorem main_loop_succ (slave : Slave) (n : Nat) (a : App) :
    main_loop slave (n + 1) a = main_iteration slave (main_loop slave n a) := by
  induction n generalizing a with
  | zero => rfl
  | succ n ih =>
    show main_loop slave (n + 1) (main_iteration slave a) = _
    rw [ih]
    rfl

theorem at_iteration_succ (slave : Slave) (m : Machine) (k : Nat) :
    at_iteration slave m (k + 1) = main_iteration slave (at_iteration slave m k) :=
  main_loop_succ slave k (main_entry m)

theorem at_iteration_counter (slave : Slave) (m : Machine) (k : Nat) :
    (at_iteration slave m k).counter = k % 256 := by
  induction k with
  | zero => rfl
  | succ k ih =>
    rw [at_iteration_succ, main_iteration_counter, ih]
    omega

theorem tally_cases (slave : Slave) (a : App) :
    ((main_iteration slave a).success_count = (a.success_count + 1) % 256 ∧
        (main_iteration slave a).fail_count = a.fail_count) ∨
      ((main_iteration slave a).success_count = a.success_count ∧
        (main_iteration slave a).fail_count = (a.fail_count + 1) % 256) := by
  obtain ⟨hs, hf⟩ := main_iteration_tallies slave a
  rw [hs, hf]
  split_ifs
  · exact Or.inl ⟨rfl, rfl⟩
  · exact Or.inr ⟨rfl, rfl⟩

theorem tallies_small (slave : Slave) (m : Machine) (n : Nat) (hn : n ≤ 255) :
    (at_iteration slave m n).success_count + (at_iteration slave m n).fail_count = n := by
  induction n with
  | zero => rfl
  | succ n ih =>
    have h := ih (by omega)
    rw [at_iteration_succ]
    rcases tally_cases slave (at_iteration slave m n) with ⟨h1, h2⟩ | ⟨h1, h2⟩
    · rw [h1, h2, Nat.mod_eq_of_lt (by omega)]; omega
    · rw [h1, h2, Nat.mod_eq_of_lt (by omega)]; omega

theorem tallies_bounded (slave : Slave) (m : Machine) (n : Nat) :
    (at_iteration slave m n).success_count < 256 ∧
      (at_iteration slave m n).fail_count < 256 := by
  induction n with
  | zero => exact ⟨Nat.zero_lt_succ _, Nat.zero_lt_succ _⟩
  | succ n ih =>
    rw [at_iteration_succ]
    rcases tally_cases slave (at_iteration slave m n) with ⟨h1, h2⟩ | ⟨h1, h2⟩
    · rw [h1, h2]; exact ⟨Nat.mod_lt _ (by norm_num), ih.2⟩
    · rw [h1, h2]; exact ⟨ih.1, Nat.mod_lt _ (by norm_num)⟩

theorem tallies_mod (slave : Slave) (m : Machine) (n : Nat) :
    ((at_iteration slave m n).success_count + (at_iteration slave m n).fail_count) % 256 =
      n % 256 := by
  induction n with
  | zero => rfl
  | succ n ih =>
    rw [at_iteration_succ]
    rcases tally_cases slave (at_iteration slave m n) with ⟨h1, h2⟩ | ⟨h1, h2⟩
    · rw [h1, h2]; omega
    · rw [h1, h2]; omega

theorem stats_lines_append (a b : List (String × List Nat)) :
    stats_lines (a ++ b) = stats_lines a ++ stats_lines b := by
  simp [stats_lines]

theorem stats_lines_step (slave : Slave) (a : App) :
    stats_lines (main_iteration slave a).console =
      stats_lines a.console ++
        (if a.counter % 10 = 9 then
          [[(main_iteration slave a).success_count, (main_iteration slave a).fail_count]]
         else []) := by
  simp only [main_iteration]
  split_ifs <;>
    simp [stats_lines, stats_format, List.filter_cons, List.filter_append]

theorem sample_count_tx (log : List (Nat × Bool)) : sample_count (ev_tx log) = log.length := by
  induction log with
  | nil => rfl
  | cons p log ih =>
    rw [ev_tx_cons, sample_count_append, sample_count_write_byte, ih, List.length_cons]
    omega

theorem sample_count_rx (slave : Slave) (length n i r : Nat) :
    sample_count (ev_rx slave length n i r) = 8 * n := by
  induction n generalizing i r with
  | zero => rfl
  | succ n ih =>
    rw [ev_rx, sample_count_append, sample_count_read_byte, samples_length, ih]
    omega

theorem I2C_Write_reads (slave : Slave) (slave_addr data length : Nat) (s : Machine) :
    (I2C_Write slave slave_addr data length s).2.reads =
      s.reads + (tx_log slave (tx_byte slave_addr data s.mem) (length + 1) 0 s.reads).length := by
  rw [I2C_Write_closed]
  simp only []
  rw [replay_reads, sample_count_append, sample_count_append, sample_count_tx]
  have h1 : sample_count ev_start = 0 := rfl
  have h2 : sample_count ev_stop = 0 := rfl
  omega

theorem I2C_Read_reads_ack (slave : Slave) (slave_addr data length : Nat) (s : Machine)
    (hack : slave s.reads = false) :
    (I2C_Read slave slave_addr data length s).2.reads = s.reads + 1 + 8 * length := by
  rw [I2C_Read_eq, hack]
  simp only [Bool.false_eq_true, if_false, with_mem_reads]
  rw [replay_reads, sample_count_append, sample_count_append, sample_count_append,
    sample_count_rx, sample_count_write_byte]
  have h1 : sample_count ev_start = 0 := rfl
  have h2 : sample_count ev_stop = 0 := rfl
  omega

theorem answering_ack (r0 : Nat) (reply : Nat → Nat) (k t : Nat) (ht : t < 3) :
    answering r0 reply (r0 + 11 * k + t) = false := by
  unfold answering
  have h : (r0 + 11 * k + t - r0) % 11 < 3 := by omega
  simp [h]

theorem answering_bit (r0 : Nat) (reply : Nat → Nat) (k t : Nat) (ht : t < 8) :
    answering r0 reply (r0 + 11 * k + 3 + t) = (reply k).testBit (7 - t) := by
  unfold answering
  have h1 : (r0 + 11 * k + 3 + t - r0) % 11 = 3 + t := by omega
  have h2 : (r0 + 11 * k + 3 + t - r0) / 11 = k := by omega
  have h3 : 10 - (3 + t) = 7 - t := by omega
  have h4 : ¬ 3 + t < 3 := by omega
  rw [h1, h2, h3, if_neg h4]

theorem answering_samples (r0 : Nat) (reply : Nat → Nat) (k : Nat) :
    samples (answering r0 reply) (r0 + 11 * k + 3) 8 = msb_bits (reply k) := by
  have h := fun t (ht : t < 8) => answering_bit r0 reply k t ht
  have h0 := h 0 (by norm_num)
  simp only [samples, msb_bits, List.range_succ, List.range_zero, List.nil_append,
    List.cons_append, List.map_cons, List.map_nil, Nat.add_zero]
  rw [Nat.add_zero] at h0
  rw [h0, h 1 (by norm_num), h 2 (by norm_num), h 3 (by norm_num), h 4 (by norm_num),
    h 5 (by norm_num), h 6 (by norm_num), h 7 (by norm_num)]

theorem tx_phase_reads_entry (slave : Slave) (a : App) :
    (tx_phase slave a).2.reads =
      a.m.reads + (tx_log slave (tx_byte ARDUINO_ADDR counter_slot
        (store a.m.mem counter_slot a.counter)) (1 + 1) 0 a.m.reads).length :=
  I2C_Write_reads slave ARDUINO_ADDR counter_slot 1 _

theorem tx_phase_answering (r0 : Nat) (reply : Nat → Nat) (k : Nat) (a : App)
    (h : a.m.reads = r0 + 11 * k) :
    (tx_phase (answering r0 reply) a).1 = I2C_STATUS_OK ∧
    (tx_phase (answering r0 reply) a).2.reads = r0 + 11 * k + 2 := by
  have hall : ∀ t, t < 1 + 1 → answering r0 reply (a.m.reads + t) = false := by
    intro t ht
    rw [h]
    exact answering_ack r0 reply k t (by omega)
  constructor
  · unfold tx_phase
    rw [I2C_Write_closed]
    simp only []
    rw [tx_status_ok_iff, all_ack_iff]
    exact hall
  · rw [tx_phase_reads_entry, tx_log_ack _ _ _ _ _ hall, h]
    simp

theorem rx_phase_answering (r0 : Nat) (reply : Nat → Nat) (k : Nat) (a : App)
    (h : a.m.reads = r0 + 11 * k) :
    (rx_phase (answering r0 reply) a).1 = I2C_STATUS_OK ∧
    (rx_phase (answering r0 reply) a).2.mem response_slot = reply k % 256 ∧
    (rx_phase (answering r0 reply) a).2.reads = r0 + 11 * (k + 1) := by
  have hr := (tx_phase_answering r0 reply k a h).2
  have hack : answering r0 reply (r0 + 11 * k + 2) = false := answering_ack r0 reply k 2 (by omega)
  unfold rx_phase
  simp only []
  refine ⟨?_, ?_, ?_⟩
  · rw [I2C_Read_status]
    show (if answering r0 reply (tx_phase (answering r0 reply) a).2.reads = true then _ else _) = _
    rw [hr, hack]
    rfl
  · rw [I2C_Read_mem_ack _ _ _ _ _ (by show answering r0 reply (tx_phase (answering r0 reply) a).2.reads = false; rw [hr, hack])]
    have hin := rx_mem_inside (answering r0 reply) response_slot 1 0
      ((tx_phase (answering r0 reply) a).2.reads + 1)
      (store (tx_phase (answering r0 reply) a).2.mem response_slot 0) 0 (by norm_num)
    simp only [Nat.add_zero, Nat.mul_zero] at hin
    show rx_mem (answering r0 reply) response_slot 1 0
      ((tx_phase (answering r0 reply) a).2.reads + 1)
      (store (tx_phase (answering r0 reply) a).2.mem response_slot 0) response_slot = _
    rw [hin, hr, answering_samples, of_bits_msb_bits]
  · rw [I2C_Read_reads_ack _ _ _ _ _ (by show answering r0 reply (tx_phase (answering r0 reply) a).2.reads = false; rw [hr, hack])]
    show (tx_phase (answering r0 reply) a).2.reads + 1 + 8 * 1 = _
    rw [hr]
    omega

theorem main_iteration_reads (slave : Slave) (a : App) :
    (main_iteration slave a).m.reads =
      if (tx_phase slave a).1 = I2C_STATUS_OK then (rx_phase slave a).2.reads
      else (tx_phase slave a).2.reads := by
  simp only [main_iteration]
  split_ifs <;> rfl

theorem iteration_answering (r0 : Nat) (reply : Nat → Nat) (k : Nat) (a : App)
    (h : a.m.reads = r0 + 11 * k) :
    (main_iteration (answering r0 reply) a).m.reads = r0 + 11 * (k + 1) ∧
    (main_iteration (answering r0 reply) a).success_count =
      (if reply k % 256 = (a.counter + 1) % 256 then (a.success_count + 1) % 256
       else a.success_count) ∧
    (main_iteration (answering r0 reply) a).fail_count =
      (if reply k % 256 = (a.counter + 1) % 256 then a.fail_count
       else (a.fail_count + 1) % 256) := by
  obtain ⟨ht, _⟩ := tx_phase_answering r0 reply k a h
  obtain ⟨hr, hm, hrd⟩ := rx_phase_answering r0 reply k a h
  obtain ⟨hs, hf⟩ := main_iteration_tallies (answering r0 reply) a
  rw [main_iteration_reads, hs, hf, if_pos ht, hrd, ht, hr, hm]
  simp

theorem answering_run (r0 : Nat) (reply : Nat → Nat) (m : Machine) (h : m.reads = r0)
    (n : Nat) :
    (at_iteration (answering r0 reply) m n).m.reads = r0 + 11 * n := by
  induction n with
  | zero => exact h
  | succ n ih =>
    rw [at_iteration_succ]
    exact (iteration_answering r0 reply n _ ih).1

theorem plus_one_run (m : Machine) (n : Nat) :
    (at_iteration (peer_plus_one m.reads) m n).success_count = n % 256 ∧
    (at_iteration (peer_plus_one m.reads) m n).fail_count = 0 := by
  induction n with
  | zero => exact ⟨rfl, rfl⟩
  | succ n ih =>
    have hr := answering_run m.reads (fun k => (k % 256 + 1) % 256) m rfl n
    obtain ⟨_, hs, hf⟩ := iteration_answering m.reads (fun k => (k % 256 + 1) % 256) n _ hr
    have hc := at_iteration_counter (peer_plus_one m.reads) m n
    unfold peer_plus_one at ih hc ⊢
    rw [at_iteration_succ, hs, hf, hc, ih.1, ih.2]
    simp only [Nat.mod_mod, if_true]
    exact ⟨by omega, trivial⟩

theorem zero_run (m : Machine) (n : Nat) (hn : n ≤ 255) :
    (at_iteration (peer_zero m.reads) m n).success_count = 0 ∧
    (at_iteration (peer_zero m.reads) m n).fail_count = n := by
  induction n with
  | zero => exact ⟨rfl, rfl⟩
  | succ n ih =>
    have hr := answering_run m.reads (fun _ => 0) m rfl n
    obtain ⟨_, hs, hf⟩ := iteration_answering m.reads (fun _ => 0) n _ hr
    have hc := at_iteration_counter (peer_zero m.reads) m n
    have ih2 := ih (by omega)
    unfold peer_zero at ih2 hc ⊢
    have hne : ¬ (0 % 256 = (n % 256 + 1) % 256) := by omega
    rw [at_iteration_succ, hs, hf, hc, ih2.1, ih2.2, if_neg hne, if_neg hne]
    exact ⟨rfl, by omega⟩

theorem zero_accepts_at_wrap (m : Machine) :
    (at_iteration (peer_zero m.reads) m 256).success_count = 1 := by
  have hr := answering_run m.reads (fun _ => 0) m rfl 255
  obtain ⟨_, hs, _⟩ := iteration_answering m.reads (fun _ => 0) 255 _ hr
  have hc := at_iteration_counter (peer_zero m.reads) m 255
  have h255 := zero_run m 255 (by norm_num)
  unfold peer_zero at h255 hc ⊢
  rw [at_iteration_succ, hs, hc, h255.1]
  rfl

theorem tx_phase_absent (a : App) : (tx_phase demo_absent a).1 = I2C_STATUS_NACK := by
  unfold tx_phase
  rw [I2C_Write_address_nack _ _ _ _ _ rfl]

theorem absent_run (m : Machine) (n : Nat) :
    (at_iteration demo_absent m n).success_count = 0 ∧
    (at_iteration demo_absent m n).fail_count = n % 256 := by
  induction n with
  | zero => exact ⟨rfl, rfl⟩
  | succ n ih =>
    obtain ⟨hs, hf⟩ := main_iteration_tallies demo_absent (at_iteration demo_absent m n)
    have hne : ¬ ((tx_phase demo_absent (at_iteration demo_absent m n)).1 = I2C_STATUS_OK ∧
        (rx_phase demo_absent (at_iteration demo_absent m n)).1 = I2C_STATUS_OK ∧
        (rx_phase demo_absent (at_iteration demo_absent m n)).2.mem response_slot =
          ((at_iteration demo_absent m n).counter + 1) % 256) := by
      rw [tx_phase_absent]
      simp
    rw [at_iteration_succ, hs, hf, if_neg hne, if_neg hne, ih.1, ih.2]
    exact ⟨rfl, by omega⟩

theorem stats_lines_at_succ (slave : Slave) (m : Machine) (k : Nat) :
    stats_lines (at_iteration slave m (k + 1)).console =
      stats_lines (at_iteration slave m k).console ++
        (if k % 256 % 10 = 9 then
          [[(at_iteration slave m (k + 1)).success_count,
            (at_iteration slave m (k + 1)).fail_count]]
         else []) := by
  rw [at_iteration_succ, stats_lines_step, at_iteration_counter]

theorem stats_none_before (slave : Slave) (m : Machine) (k : Nat) (hk : k ≤ 9) :
    stats_lines (at_iteration slave m k).console = [] := by
  revert hk
  induction k with
  | zero => intro _; rfl
  | succ k ih =>
    intro hk
    have hk256 : k % 256 = k := Nat.mod_eq_of_lt (by omega)
    have hne : ¬ k % 256 % 10 = 9 := by rw [hk256]; omega
    rw [stats_lines_at_succ, ih (by omega), if_neg hne]
    rfl

theorem stats_after_ten (slave : Slave) (m : Machine) :
    stats_lines (at_iteration slave m 10).console =
      [[(at_iteration slave m 10).success_count, (at_iteration slave m 10).fail_count]] := by
  rw [stats_lines_at_succ, stats_none_before slave m 9 (by norm_num)]
  rfl

/-- Counterexample to C12: against a peer that never acknowledges, after 256
iterations the two tallies do not add up to 256 (both are 0). -/
theorem tallies_wrap_at_256 :
    (at_iteration demo_absent demo_machine 256).success_count +
      (at_iteration demo_absent demo_machine 256).fail_count ≠ 256 := by
  rw [(absent_run demo_machine 256).1, (absent_run demo_machine 256).2]
  decide

/-- C12, amended: the tallies are 8-bit.  For every number `n ≤ 255` of
completed iterations and every behaviour of the peer,
`success_count + fail_count = n`; for every number of iterations the sum is
congruent to it modulo 256.  After ten iterations with the peer always
answering `C + 1` the one stats line printed reports Success=10, Fail=0. -/
theorem tallies_count_iterations (slave : Slave) (m : Machine) (n : Nat) (hn : n ≤ 255) :
    (at_iteration slave m n).success_count + (at_iteration slave m n).fail_count = n ∧
    (∀ k, ((at_iteration slave m k).success_count + (at_iteration slave m k).fail_count) % 256 =
      k % 256) ∧
    stats_lines (at_iteration (peer_plus_one m.reads) m 10).console = [[10, 0]] := by
  refine ⟨tallies_small slave m n hn, fun k => tallies_mod slave m k, ?_⟩
  rw [stats_after_ten, (plus_one_run m 10).1, (plus_one_run m 10).2]

/-- Witness for C12: ten iterations against the peer answering `C + 1`. -/
theorem tallies_count_iterations_witness :
    (10 : Nat) ≤ 255 ∧
    (at_iteration (peer_plus_one demo_machine.reads) demo_machine 10).success_count +
      (at_iteration (peer_plus_one demo_machine.reads) demo_machine 10).fail_count = 10 ∧
    stats_lines (at_iteration (peer_plus_one demo_machine.reads) demo_machine 10).console =
      [[10, 0]] :=
  ⟨by decide,
   (tallies_count_iterations (peer_plus_one demo_machine.reads) demo_machine 10 (by decide)).1,
   (tallies_count_iterations (peer_plus_one demo_machine.reads) demo_machine 10
     (by decide)).2.2⟩

/-- Counterexample to C13: against the peer that acknowledges everything and
answers 0x00, the iteration with `C = 0x00` does not record a success, and the
stats line after the iteration with counter 9 is not Success=1, Fail=9. -/
theorem zero_peer_first_iteration_fails :
    (at_iteration (peer_zero demo_machine.reads) demo_machine 1).success_count ≠ 1 ∧
    stats_lines (at_iteration (peer_zero demo_machine.reads) demo_machine 10).console ≠
      [[1, 9]] := by
  rw [(zero_run demo_machine 1 (by norm_num)).1, stats_after_ten,
    (zero_run demo_machine 10 (by norm_num)).1, (zero_run demo_machine 10 (by norm_num)).2]
  exact ⟨by decide, by decide⟩

/-- C13, amended: when the peer acknowledges every transfer and answers 0x00 to
every read, the main loop started from counter 0 records a failure in each of
the iterations with `C = 0x00..0x09` (and in every iteration up to `C = 0xFE`:
the expected answer is `C + 1`, so 0x00 is accepted only for `C = 0xFF`), and
the stats line emitted after the iteration with counter 9 reports Success=0,
Fail=10. -/
theorem zero_peer_fails_until_wrap (m : Machine) (n : Nat) (hn : n ≤ 255) :
    (at_iteration (peer_zero m.reads) m n).success_count = 0 ∧
    (at_iteration (peer_zero m.reads) m n).fail_count = n ∧
    (at_iteration (peer_zero m.reads) m 256).success_count = 1 ∧
    stats_lines (at_iteration (peer_zero m.reads) m 10).console = [[0, 10]] := by
  refine ⟨(zero_run m n hn).1, (zero_run m n hn).2, zero_accepts_at_wrap m, ?_⟩
  rw [stats_after_ten, (zero_run m 10 (by norm_num)).1, (zero_run m 10 (by norm_num)).2]

/-- Witness for C13: the first ten iterations against the peer answering
0x00. -/
theorem zero_peer_fails_until_wrap_witness :
    (10 : Nat) ≤ 255 ∧
    (at_iteration (peer_zero demo_machine.reads) demo_machine 10).success_count = 0 ∧
    (at_iteration (peer_zero demo_machine.reads) demo_machine 10).fail_count = 10 ∧
    stats_lines (at_iteration (peer_zero demo_machine.reads) demo_machine 10).console =
      [[0, 10]] :=
  ⟨by decide,
   (zero_peer_fails_until_wrap demo_machine 10 (by decide)).1,
   (zero_peer_fails_until_wrap demo_machine 10 (by decide)).2.1,
   (zero_peer_fails_until_wrap demo_machine 10 (by decide)).2.2.2⟩

/-- C14, the code at the failing input: whatever the peer does, iteration 259
(counter 3 after the wrap at 256) prints no stats line although
`259 mod 10 = 9`; iterations 249 and 265 (counters 249 and 9) each print one,
sixteen iterations apart. -/
theorem stats_line_skipped_after_wrap (slave : Slave) (m : Machine) :
    stats_lines (at_iteration slave m 260).console =
      stats_lines (at_iteration slave m 259).console ∧
    (stats_lines (at_iteration slave m 250).console).length =
      (stats_lines (at_iteration slave m 249).console).length + 1 ∧
    (stats_lines (at_iteration slave m 266).console).length =
      (stats_lines (at_iteration slave m 265).console).length + 1 := by
  refine ⟨?_, ?_, ?_⟩
  · rw [stats_lines_at_succ]
    simp
  · rw [stats_lines_at_succ]
    simp
  · rw [stats_lines_at_succ]
    simp

theorem led_events_append (a b : List Event) :
    led_events (a ++ b) = led_events a ++ led_events b := by
  induction a with
  | nil => rfl
  | cons e a ih =>
    cases e with
    | gpioSetHigh pin =>
      by_cases h : pin = LED_DIO <;> simp [led_events, h, ih]
    | gpioSetLow pin =>
      by_cases h : pin = LED_DIO <;> simp [led_events, h, ih]
    | dioConfig pin mode => simp [led_events, ih]
    | spin n => simp [led_events, ih]
    | dioData pin level => simp [led_events, ih]
    | watchdogRefresh => simp [led_events, ih]

theorem led_events_bit (d : DioMode) : led_events (ev_bit d) = [] := by
  cases d <;> decide

theorem led_events_bits (ds : List DioMode) : led_events (ds.flatMap ev_bit) = [] := by
  induction ds with
  | nil => rfl
  | cons d ds ih => rw [List.flatMap_cons, led_events_append, led_events_bit, ih]; rfl

theorem led_events_ack (level : Bool) : led_events (ev_ack level) = [] := by
  cases level <;> decide

theorem led_events_write_byte (byte : Nat) (level : Bool) :
    led_events (ev_write_byte byte level) = [] := by
  rw [ev_write_byte, led_events_append, led_events_bits, led_events_ack]
  rfl

theorem led_events_tx (log : List (Nat × Bool)) : led_events (ev_tx log) = [] := by
  induction log with
  | nil => rfl
  | cons p log ih => rw [ev_tx_cons, led_events_append, led_events_write_byte, ih]; rfl

theorem led_events_rbit (level : Bool) : led_events (ev_rbit level) = [] := by
  cases level <;> decide

theorem led_events_rbits (ls : List Bool) : led_events (ls.flatMap ev_rbit) = [] := by
  induction ls with
  | nil => rfl
  | cons l ls ih => rw [List.flatMap_cons, led_events_append, led_events_rbit, ih]; rfl

theorem led_events_reply (reply : DioMode) : led_events (ev_reply reply) = [] := by
  cases reply <;> decide

theorem led_events_read_byte (ls : List Bool) (reply : DioMode) :
    led_events (ev_read_byte ls reply) = [] := by
  rw [ev_read_byte_eq, led_events_append, led_events_append, led_events_rbits,
    led_events_reply]
  rfl

theorem led_events_rx (slave : Slave) (length n i r : Nat) :
    led_events (ev_rx slave length n i r) = [] := by
  induction n generalizing i r with
  | zero => rfl
  | succ n ih => rw [ev_rx, led_events_append, led_events_read_byte, ih]; rfl

theorem led_events_start : led_events ev_start = [] := by decide

theorem led_events_stop : led_events ev_stop = [] := by decide

theorem led_events_write (slave : Slave) (slave_addr data length : Nat) (mem : Nat → Nat)
    (r : Nat) : led_events (write_events slave slave_addr data length mem r) = [] := by
  rw [write_events, led_events_append, led_events_append, led_events_start, led_events_tx,
    led_events_stop]
  rfl

theorem led_events_read (slave : Slave) (slave_addr length r : Nat) :
    led_events (read_events slave slave_addr length r) = [] := by
  unfold read_events
  split
  · rw [led_events_append, led_events_append, led_events_start, led_events_write_byte,
      led_events_stop]
    rfl
  · rw [led_events_append, led_events_append, led_events_append, led_events_start,
      led_events_write_byte, led_events_rx, led_events_stop]
    rfl

theorem with_mem_trace (s : Machine) (m : Nat → Nat) : (with_mem s m).trace = s.trace := rfl

theorem I2C_Write_trace (slave : Slave) (slave_addr data length : Nat) (s : Machine) :
    (I2C_Write slave slave_addr data length s).2.trace =
      s.trace ++ write_events slave slave_addr data length s.mem s.reads := by
  rw [I2C_Write_closed]
  simp only []
  rw [replay_trace, write_events]

theorem I2C_Read_trace (slave : Slave) (slave_addr data length : Nat) (s : Machine) :
    (I2C_Read slave slave_addr data length s).2.trace =
      s.trace ++ read_events slave slave_addr length s.reads := by
  rw [I2C_Read_eq]
  unfold read_events
  cases slave s.reads
  · simp only [Bool.false_eq_true, if_false]
    rw [with_mem_trace, replay_trace]
  · simp only [if_true]
    rw [replay_trace]

theorem tx_phase_trace (slave : Slave) (a : App) :
    (tx_phase slave a).2.trace =
      a.m.trace ++ write_events slave ARDUINO_ADDR counter_slot 1
        (store a.m.mem counter_slot a.counter) a.m.reads :=
  I2C_Write_trace slave ARDUINO_ADDR counter_slot 1 _

theorem rx_phase_trace (slave : Slave) (a : App) :
    (rx_phase slave a).2.trace =
      (tx_phase slave a).2.trace ++
        ([Event.gpioSetHigh LED_DIO, Event.spin (SYSTEM_CLOCK_48MHZ / 10)] ++
          read_events slave ARDUINO_ADDR 1 (tx_phase slave a).2.reads) := by
  unfold rx_phase
  simp only []
  rw [I2C_Read_trace]
  simp [Sys_GPIO_Set_High, Sys_Delay_ProgramROM, busy_wait]

theorem main_iteration_trace (slave : Slave) (a : App) :
    (main_iteration slave a).m.trace = a.m.trace ++ iteration_events slave a := by
  unfold iteration_events
  by_cases h : (tx_phase slave a).1 = I2C_STATUS_OK
  · rw [if_pos h]
    have ht : (main_iteration slave a).m.trace =
        (rx_phase slave a).2.trace ++ [Event.gpioSetLow LED_DIO,
          Event.spin (SYSTEM_CLOCK_48MHZ / 2), Event.watchdogRefresh] := by
      simp only [main_iteration, if_pos h]
      split_ifs <;>
        simp [Sys_GPIO_Set_Low, Sys_Watchdog_Refresh, Sys_Delay_ProgramROM, busy_wait]
    rw [ht, rx_phase_trace, tx_phase_trace]
    simp
  · rw [if_neg h]
    have ht : (main_iteration slave a).m.trace =
        (tx_phase slave a).2.trace ++
          [Event.spin (SYSTEM_CLOCK_48MHZ / 2), Event.watchdogRefresh] := by
      simp only [main_iteration, if_neg h]
      split_ifs <;>
        simp [Sys_Watchdog_Refresh, Sys_Delay_ProgramROM, busy_wait]
    rw [ht, tx_phase_trace]
    simp

theorem since_iteration (slave : Slave) (a : App) :
    since a.m (main_iteration slave a).m = iteration_events slave a := by
  rw [since, main_iteration_trace]
  simp

theorem scan_skip_high (pin : Nat) (p : Option (DioMode × Option Bool)) (sda scl : DioMode)
    (rest : List Event) :
    scan p sda scl (Event.gpioSetHigh pin :: rest) = scan p sda scl rest := by
  simp [scan, edges]

theorem scan_skip_low (pin : Nat) (p : Option (DioMode × Option Bool)) (sda scl : DioMode)
    (rest : List Event) :
    scan p sda scl (Event.gpioSetLow pin :: rest) = scan p sda scl rest := by
  simp [scan, edges]

theorem scan_skip_watchdog (p : Option (DioMode × Option Bool)) (sda scl : DioMode)
    (rest : List Event) :
    scan p sda scl (Event.watchdogRefresh :: rest) = scan p sda scl rest := by
  simp [scan, edges]

theorem scan_write_txn (slave : Slave) (slave_addr data length : Nat) (mem : Nat → Nat)
    (r : Nat) (rest : List Event) :
    scan none GPIO_IN_0 GPIO_IN_0 (write_events slave slave_addr data length mem r ++ rest) =
      Sym.START :: (tx_frames (tx_log slave (tx_byte slave_addr data mem) (length + 1) 0 r) ++
        [Sym.STOP]) ++ scan none GPIO_IN_0 GPIO_IN_0 rest := by
  rw [write_events, List.append_assoc, List.append_assoc, scan_start, scan_tx_any]
  simp

theorem scan_read_txn (slave : Slave) (slave_addr length r : Nat) (rest : List Event) :
    scan none GPIO_IN_0 GPIO_IN_0 (read_events slave slave_addr length r ++ rest) =
      read_wire slave slave_addr length r ++ scan none GPIO_IN_0 GPIO_IN_0 rest := by
  unfold read_events read_wire
  cases slave r
  · simp only [Bool.false_eq_true, if_false, List.append_assoc]
    rw [scan_start, scan_write_byte, scan_rx, scan_stop]
    simp
  · simp only [if_true, List.append_assoc]
    rw [scan_start, scan_write_byte, scan_stop]
    simp

theorem tx_log_two (slave : Slave) (byte : Nat → Nat) (r : Nat) :
    tx_frames (tx_log slave byte (1 + 1) 0 r) =
      tx_frame (byte 0) (slave r) ++
        (if slave r then [] else tx_frame (byte 1) (slave (r + 1))) := by
  simp only [tx_log, tx_frames_cons]
  cases slave r
  · cases slave (r + 1) <;> simp [tx_frames]
  · simp [tx_frames]

theorem tx_phase_ok_iff (slave : Slave) (a : App) :
    (tx_phase slave a).1 = I2C_STATUS_OK ↔
      slave a.m.reads = false ∧ slave (a.m.reads + 1) = false := by
  unfold tx_phase
  rw [I2C_Write_closed]
  simp only []
  rw [tx_status_ok_iff]
  simp [all_ack]

theorem tx_phase_reads_ok (slave : Slave) (a : App)
    (h : (tx_phase slave a).1 = I2C_STATUS_OK) :
    (tx_phase slave a).2.reads = a.m.reads + 2 := by
  obtain ⟨h0, h1⟩ := (tx_phase_ok_iff slave a).1 h
  rw [tx_phase_reads_entry]
  simp [tx_log, h0, h1]

theorem read_wire_one (slave : Slave) (slave_addr r : Nat) :
    read_wire slave slave_addr 1 r =
      Sym.START :: (tx_frame (addr_byte slave_addr 1) (slave r) ++
        ((if slave r then [] else rx_frame (samples slave (r + 1) 8) GPIO_IN_0) ++
          [Sym.STOP])) := by
  unfold read_wire
  cases slave r
  · have h : reply_mode (send_ack_of 1 0) = GPIO_IN_0 := by
      rw [reply_mode_send_ack]; rfl
    simp [rx_frames, h]
  · simp

theorem wire_iteration (slave : Slave) (a : App) :
    wire GPIO_IN_0 GPIO_IN_0 (iteration_events slave a) =
      Sym.START :: (tx_frame (addr_byte ARDUINO_ADDR 0) (slave a.m.reads) ++
        ((if slave a.m.reads then [] else tx_frame a.counter (slave (a.m.reads + 1))) ++
          [Sym.STOP])) ++
      (if (tx_phase slave a).1 = I2C_STATUS_OK then
        Sym.START :: (tx_frame (addr_byte ARDUINO_ADDR 1) (slave (a.m.reads + 2)) ++
          ((if slave (a.m.reads + 2) then []
            else rx_frame (samples slave (a.m.reads + 3) 8) GPIO_IN_0) ++ [Sym.STOP]))
       else []) := by
  have hb0 : tx_byte ARDUINO_ADDR counter_slot (store a.m.mem counter_slot a.counter) 0 =
      addr_byte ARDUINO_ADDR 0 := rfl
  have hb1 : tx_byte ARDUINO_ADDR counter_slot (store a.m.mem counter_slot a.counter) 1 =
      a.counter := by
    simp [tx_byte, store]
  rw [wire_eq_scan, iteration_events, scan_write_txn, tx_log_two, hb0, hb1]
  by_cases h : (tx_phase slave a).1 = I2C_STATUS_OK
  · rw [if_pos h, if_pos h, tx_phase_reads_ok slave a h]
    simp only [List.append_assoc, List.cons_append, List.nil_append, List.singleton_append]
    rw [scan_skip_high, scan_spin, scan_read_txn, read_wire_one, scan_skip_low, scan_spin,
      scan_skip_watchdog, scan_nil]
    simp
  · rw [if_neg h, if_neg h, List.nil_append, scan_spin, scan_skip_watchdog, scan_nil]
    simp

theorem led_events_iteration (slave : Slave) (a : App) :
    led_events (iteration_events slave a) =
      if (tx_phase slave a).1 = I2C_STATUS_OK then [true, false] else [] := by
  unfold iteration_events
  rw [led_events_append, led_events_write, led_events_append]
  split
  · rw [led_events_append, led_events_append, led_events_read]
    decide
  · decide

theorem main_iteration_pads (slave : Slave) (a : App) :
    (main_iteration slave a).m.sda =
      (if (tx_phase slave a).1 = I2C_STATUS_OK then (rx_phase slave a).2.sda
       else (tx_phase slave a).2.sda) ∧
    (main_iteration slave a).m.scl =
      (if (tx_phase slave a).1 = I2C_STATUS_OK then (rx_phase slave a).2.scl
       else (tx_phase slave a).2.scl) := by
  simp only [main_iteration]
  split_ifs <;> exact ⟨rfl, rfl⟩

theorem idle_tx_phase (slave : Slave) (a : App) : idle (tx_phase slave a).2 :=
  idle_Write _ _ _ _ _

theorem idle_rx_phase (slave : Slave) (a : App) : idle (rx_phase slave a).2 :=
  idle_Read _ _ _ _ _

theorem idle_iteration (slave : Slave) (a : App) : idle (main_iteration slave a).m := by
  obtain ⟨h1, h2⟩ := main_iteration_pads slave a
  unfold idle
  rw [h1, h2]
  split_ifs
  · exact idle_rx_phase slave a
  · exact idle_tx_phase slave a

theorem idle_at_iteration (slave : Slave) (m : Machine) (k : Nat) (h : idle m) :
    idle (at_iteration slave m k).m := by
  cases k with
  | zero => exact h
  | succ k => rw [at_iteration_succ]; exact idle_iteration _ _

/-- C16: whatever happened in the earlier transfers, at the head of iteration
`k` the counter is `k mod 256` and the bus is idle.  During the iteration the
bus carries one write transaction to address 0x55 (address byte 0xAA) with the
single data byte `k mod 256` (sent when the address is acknowledged), followed,
exactly when that write returned OK, by one read transaction from address 0x55
(address byte 0xAB) of a single byte, answered with NACK.  The LED is switched
on and off exactly when the write returned OK.  In every case the counter
becomes `(k + 1) mod 256` and the stats check is made: a stats line is printed
exactly when `k mod 256 mod 10 = 9`. -/
theorem loop_counter_and_transfers (slave : Slave) (m : Machine) (k : Nat) (hidle : idle m) :
    (at_iteration slave m k).counter = k % 256 ∧
    idle (at_iteration slave m k).m ∧
    (at_iteration slave m (k + 1)).counter = (k + 1) % 256 ∧
    bus_wire (at_iteration slave m k).m (at_iteration slave m (k + 1)).m =
      Sym.START :: (tx_frame (addr_byte ARDUINO_ADDR 0) (slave (at_iteration slave m k).m.reads) ++
        ((if slave (at_iteration slave m k).m.reads then []
          else tx_frame (k % 256) (slave ((at_iteration slave m k).m.reads + 1))) ++
          [Sym.STOP])) ++
      (if (tx_phase slave (at_iteration slave m k)).1 = I2C_STATUS_OK then
        Sym.START :: (tx_frame (addr_byte ARDUINO_ADDR 1)
            (slave ((at_iteration slave m k).m.reads + 2)) ++
          ((if slave ((at_iteration slave m k).m.reads + 2) then []
            else rx_frame (samples slave ((at_iteration slave m k).m.reads + 3) 8) GPIO_IN_0) ++
            [Sym.STOP]))
       else []) ∧
    (addr_byte ARDUINO_ADDR 0 = 0xAA ∧ addr_byte ARDUINO_ADDR 1 = 0xAB) ∧
    led_events (since (at_iteration slave m k).m (at_iteration slave m (k + 1)).m) =
      (if (tx_phase slave (at_iteration slave m k)).1 = I2C_STATUS_OK then [true, false]
       else []) ∧
    stats_lines (at_iteration slave m (k + 1)).console =
      stats_lines (at_iteration slave m k).console ++
        (if k % 256 % 10 = 9 then
          [[(at_iteration slave m (k + 1)).success_count,
            (at_iteration slave m (k + 1)).fail_count]]
         else []) := by
  have hc := at_iteration_counter slave m k
  have hi := idle_at_iteration slave m k hidle
  refine ⟨hc, hi, at_iteration_counter slave m (k + 1), ?_, ⟨by decide, by decide⟩, ?_,
    stats_lines_at_succ slave m k⟩
  · rw [at_iteration_succ, bus_wire, since_iteration, hi.1, hi.2, wire_iteration, hc]
  · rw [at_iteration_succ, since_iteration, led_events_iteration]

/-- Witness for C16: iteration 3 of the loop entered with the bus idle, against
the peer answering `C + 1`. -/
theorem loop_counter_and_transfers_witness :
    idle demo_machine ∧
    (at_iteration (peer_plus_one 0) demo_machine 3).counter = 3 % 256 ∧
    (at_iteration (peer_plus_one 0) demo_machine (3 + 1)).counter = (3 + 1) % 256 :=
  ⟨by decide,
   (loop_counter_and_transfers (peer_plus_one 0) demo_machine 3 (by decide)).1,
   (loop_counter_and_transfers (peer_plus_one 0) demo_machine 3 (by decide)).2.2.1⟩

end I2C
